import Mathlib

/-!
Shallow embedding of the inode/handle management core of the passthrough
filesystem (src/fuse-ll/passthrough_ll), covering:

* the refcounted inode store with its three indices
  (passthrough/inode_store.rs),
* the open-flag handling of `open_inode` / `do_open` / `create`
  (passthrough/mod.rs),
* handle migration info (device_state/preserialization/mod.rs),
* migration deserialization (device_state/deserialization.rs).

Rust `BTreeMap`s are modelled as association lists with overwrite-on-insert
semantics; `u64` refcounts are natural numbers (the one place where overflow
could occur, refcount increment, reduces modulo 2^64 explicitly); open-flag
words are natural numbers below 2^32 manipulated with the same bitwise
operations as the C `int` flags.  Host I/O (openat, statx, name_to_handle_at)
is abstracted into an explicit oracle (`HostModel`) recording, for each call
the code can make, the result the host would return.
-/

/-- Lookup in an association list (the finite-map view of a `BTreeMap`). -/
def alookup [DecidableEq κ] : List (κ × α) → κ → Option α
  | [], _ => none
  | (k, v) :: rest, k' => if k' = k then some v else alookup rest k'

/-- Key removal from an association list (`BTreeMap::remove`). -/
def aerase [DecidableEq κ] (l : List (κ × α)) (k : κ) : List (κ × α) :=
  l.filter (fun p => decide (p.1 ≠ k))

/-- Insert-or-overwrite (`BTreeMap::insert`), as a finite-map update. -/
def ainsert [DecidableEq κ] (l : List (κ × α)) (k : κ) (v : α) : List (κ × α) :=
  (k, v) :: aerase l k

theorem alookup_aerase [DecidableEq κ] (l : List (κ × α)) (k k' : κ) :
    alookup (aerase l k) k' = if k' = k then none else alookup l k' := by
  induction l with
  | nil => simp [aerase, alookup]
  | cons p rest ih =>
    by_cases hp : p.1 = k
    · by_cases hk : k' = k <;>
        simp_all [aerase, alookup, List.filter]
    · by_cases hk : k' = p.1 <;> by_cases hk2 : k' = k <;>
        simp_all [aerase, alookup, List.filter]

theorem alookup_ainsert [DecidableEq κ] (l : List (κ × α)) (k k' : κ) (v : α) :
    alookup (ainsert l k v) k' = if k' = k then some v else alookup l k' := by
  by_cases hk : k' = k <;> simp [ainsert, alookup, hk, alookup_aerase]

theorem alookup_mem [DecidableEq κ] (l : List (κ × α)) (k : κ) (v : α)
    (h : alookup l k = some v) : (k, v) ∈ l := by
  induction l with
  | nil => simp [alookup] at h
  | cons p rest ih =>
    by_cases hk : k = p.1
    · simp [alookup, hk] at h
      subst hk
      cases p
      simp_all
    · simp [alookup, hk] at h
      exact List.mem_cons_of_mem _ (ih h)

theorem mem_aerase [DecidableEq κ] (l : List (κ × α)) (k : κ) (p : κ × α)
    (h : p ∈ aerase l k) : p ∈ l :=
  List.mem_of_mem_filter h

theorem mem_ainsert [DecidableEq κ] (l : List (κ × α)) (k : κ) (v : α) (p : κ × α)
    (h : p ∈ ainsert l k v) : p = (k, v) ∨ p ∈ l := by
  rcases List.mem_cons.mp h with h | h
  · exact Or.inl h
  · exact Or.inr (mem_aerase _ _ _ h)

/-- Modelled from the spec: `fuse2::ROOT_ID` (the `fuse2` module is generated
FUSE protocol bindings that are not part of this repository).  The spec only
says it is the reserved inode ID of the shared directory root; the FUSE
protocol fixes it to 1. -/
def ROOT_ID : Nat := 1

/-- FUSE inode IDs (`pub type Inode = u64`, inode_store.rs). -/
abbrev Inode := Nat

/-- Guest-visible handle IDs (`pub type Handle = u64`, passthrough/mod.rs). -/
abbrev Handle := Nat

/-- Host identity tuple, inode_store.rs `InodeIds`. -/
structure InodeIds where
  ino : Nat
  dev : Nat
  mnt_id : Nat
deriving DecidableEq

/-- file_handle.rs `FileHandle { mnt_id, handle: CFileHandle }`.  The kernel
handle (type tag plus opaque bytes) is modelled as one opaque number; only
equality and map-key use matter to the store. -/
structure FileHandle where
  mnt_id : Nat
  handle : Nat
deriving DecidableEq

/-- file_handle.rs `SerializableFileHandle { mnt_id, handle_type, handle }`;
`handle` packs the type tag and the bytes, as in `FileHandle`. -/
structure SerializableFileHandle where
  mnt_id : Nat
  handle : Nat
deriving DecidableEq

/-- `SerializableFileHandle::require_equal_without_mount_id` as a test:
compare the handle data, disregarding the mount ID. -/
def SerializableFileHandle.eq_without_mount_id (a b : SerializableFileHandle) : Bool :=
  a.handle == b.handle

/-- file_handle.rs `FileOrHandle`.  The `File` variant's fd and the `Invalid`
variant's stored error are not needed by the store (the fd is identified by
the entry's `InodeIds`, which is how the host oracle is keyed). -/
inductive FileOrHandle where
  | file : FileOrHandle
  | handle : FileHandle → FileOrHandle
  | invalid : FileOrHandle
deriving DecidableEq

def FileOrHandle.isFile : FileOrHandle → Bool
  | .file => true
  | _ => false

/-- preserialization/mod.rs `InodeLocation` (the in-store precursor):
`RootNode`, or `Path(find_paths::InodePath)` holding a strong reference to
the parent plus the filename. -/
inductive InodeLocationPre where
  | rootNode : InodeLocationPre
  | path : Inode → String → InodeLocationPre
deriving DecidableEq

/-- preserialization/mod.rs `InodeMigrationInfo`. -/
structure InodeMigrationInfo where
  location : InodeLocationPre
  file_handle : Option SerializableFileHandle
deriving DecidableEq

/-- inode_store.rs `InodeData`.  The `refcount: AtomicU64` cell is a natural
number; `migration_info: Mutex<Option<InodeMigrationInfo>>` is an `Option`. -/
structure InodeData where
  inode : Inode
  file_or_handle : FileOrHandle
  refcount : Nat
  ids : InodeIds
  mode : Nat
  migration_info : Option InodeMigrationInfo
deriving DecidableEq

/-- inode_store.rs `InodeStoreInner`: the three parallel indices. -/
structure InodeStoreInner where
  data : List (Inode × InodeData)
  by_ids : List (InodeIds × Inode)
  by_handle : List (FileHandle × Inode)
deriving DecidableEq

def InodeStoreInner.empty : InodeStoreInner := ⟨[], [], []⟩

def InodeStoreInner.get (s : InodeStoreInner) (inode : Inode) : Option InodeData :=
  alookup s.data inode

def InodeStoreInner.inode_by_ids (s : InodeStoreInner) (ids : InodeIds) : Option Inode :=
  alookup s.by_ids ids

def InodeStoreInner.inode_by_handle (s : InodeStoreInner) (h : FileHandle) : Option Inode :=
  alookup s.by_handle h

/-- `get_by_ids`; the source `unwrap`s the inner lookup, which cannot fail
under the index-soundness invariant proved below; `Option.bind` renders it. -/
def InodeStoreInner.get_by_ids (s : InodeStoreInner) (ids : InodeIds) : Option InodeData :=
  (s.inode_by_ids ids).bind s.get

def InodeStoreInner.get_by_handle (s : InodeStoreInner) (h : FileHandle) : Option InodeData :=
  (s.inode_by_handle h).bind s.get

def InodeStoreInner.contains (s : InodeStoreInner) (inode : Inode) : Bool :=
  (s.get inode).isSome

def InodeStoreInner.is_empty (s : InodeStoreInner) : Bool :=
  s.data.isEmpty

/-- inode_store.rs `InodeStoreInner::insert_new`: unconditionally index the
entry by ids (and by handle when it has one), then store it under its FUSE
inode ID.  The callers guarantee the data key is new (`assert!` in Rust);
overwriting `by_ids`/`by_handle` entries is explicitly tolerated there. -/
def InodeStoreInner.insert_new (s : InodeStoreInner) (d : InodeData) : InodeStoreInner :=
  let by_ids := ainsert s.by_ids d.ids d.inode
  let by_handle :=
    match d.file_or_handle with
    | .handle h => ainsert s.by_handle h d.inode
    | _ => s.by_handle
  { data := ainsert s.data d.inode d, by_ids := by_ids, by_handle := by_handle }

/-- The non-recursive part of `InodeStoreInner::remove`: drop the entry from
all three indices, and report the parent inode whose strong reference the
entry's migration info held (to be dropped via the `drop_unlocked` path,
i.e. `forget_one(parent, 1)` on the same locked store). -/
def InodeStoreInner.removeBase (s : InodeStoreInner) (inode : Inode) :
    InodeStoreInner × Option Inode :=
  match s.get inode with
  | none => (s, none)
  | some d =>
    let s1 := { s with data := aerase s.data inode }
    let s2 :=
      match d.file_or_handle with
      | .handle h => { s1 with by_handle := aerase s1.by_handle h }
      | _ => s1
    let s3 := { s2 with by_ids := aerase s2.by_ids d.ids }
    match d.migration_info with
    | some mi =>
      match mi.location with
      | .path parent _ => (s3, some parent)
      | .rootNode => (s3, none)
    | none => (s3, none)

/-- inode_store.rs `InodeStoreInner::forget_one`, with the removal of
`InodeStoreInner::remove` inlined (removal cascades into
`StrongInodeReference::drop_unlocked`, i.e. a further `forget_one` on the
migration-info parent, hence the fuel-indexed recursion; each recursive step
follows the erasure of one entry, so fuel `data.length + 1` is exact).
The CAS loop of the source always succeeds in one round here, because the
store (holding the lock) is the whole state. -/
def InodeStoreInner.forgetOneFuel : Nat → InodeStoreInner → Inode → Nat → InodeStoreInner
  | 0, s, _, _ => s
  | fuel + 1, s, inode, count =>
    match s.get inode with
    | none => s
    | some d =>
      -- u64 saturating_sub is truncated subtraction on Nat
      let new_count := d.refcount - count
      let s' := { s with data := ainsert s.data inode { d with refcount := new_count } }
      if new_count = 0 then
        match s'.removeBase inode with
        | (s'', none) => s''
        | (s'', some parent) => InodeStoreInner.forgetOneFuel fuel s'' parent 1
      else s'

def InodeStoreInner.forget_one (s : InodeStoreInner) (inode : Inode) (count : Nat) :
    InodeStoreInner :=
  InodeStoreInner.forgetOneFuel (s.data.length + 1) s inode count

/-- inode_store.rs `InodeStoreInner::remove` (entry removal plus the
`drop_unlocked` of the migration-info strong reference). -/
def InodeStoreInner.remove (s : InodeStoreInner) (inode : Inode) : InodeStoreInner :=
  match s.removeBase inode with
  | (s', none) => s'
  | (s', some parent) => InodeStoreInner.forgetOneFuel (s'.data.length + 1) s' parent 1

/-- inode_store.rs `InodeStoreInner::clear_migration_info`: collect the
strong parent references of every non-root entry while taking the infos out,
then drop them through the locked (`drop_unlocked`) path. -/
def InodeStoreInner.clear_migration_info (s : InodeStoreInner) : InodeStoreInner :=
  let refs := s.data.foldr
    (fun p acc =>
      if p.1 = ROOT_ID then acc
      else
        match p.2.migration_info with
        | some mi =>
          match mi.location with
          | .path parent _ => parent :: acc
          | .rootNode => acc
        | none => acc) []
  let newData :=
    s.data.map (fun p => if p.1 = ROOT_ID then p else (p.1, { p.2 with migration_info := none }))
  let cleared := { s with data := newData }
  refs.foldl (fun st parent => st.forget_one parent 1) cleared

/-- inode_store.rs `InodeStoreInner::clear`. -/
def InodeStoreInner.clear (s : InodeStoreInner) : InodeStoreInner :=
  let cleared := s.clear_migration_info
  { cleared with data := [], by_handle := [], by_ids := [] }

def U64_MOD : Nat := 2 ^ 64

/-- Errors, classified the way the claims distinguish them.  `notFound` and
`deleted` are both `io::ErrorKind::NotFound` in the source; the remaining
constructors stand for the distinct `other_io_error`/errno payloads. -/
inductive FsError where
  | notFound
  | deleted
  | doubleUse
  | invalidInode
  | ebadf
  | hostOpenFailed
  | handleMismatch
  | nonRootAsRoot
  | pathForRootNode
  | unresolvedReferences
  | sourceLostInode
  | writebackConflict
  | announceSubmountsConflict
  | posixAclConflict
deriving DecidableEq

def isOkE (e : Except FsError α) : Bool :=
  match e with
  | .ok _ => true
  | .error _ => false

/-- inode_store.rs `StrongInodeReference::increment_refcount_for`: the
`fetch_update` loop that refuses to raise a zero refcount.  `none` is the
`Err(_old_rc)` case ("is already deleted").  The `rc + 1` is a u64 addition,
hence the explicit reduction modulo 2^64. -/
def increment_refcount_for (rc : Nat) : Option Nat :=
  if rc > 0 then some ((rc + 1) % U64_MOD) else none

/-- inode_store.rs `StrongInodeReference::new_with_data`: increment the
refcount of `d` (shared with the store through the `Arc`, so the updated
entry is written back at its key), or fail with the "already deleted" error.
The returned inode ID stands for the strong reference. -/
def InodeStore.new_with_data (s : InodeStoreInner) (d : InodeData) :
    Except FsError (Inode × InodeStoreInner) :=
  match increment_refcount_for d.refcount with
  | some rc =>
    .ok (d.inode, { s with data := ainsert s.data d.inode { d with refcount := rc } })
  | none => .error .deleted

/-- inode_store.rs `StrongInodeReference::new` / `InodeStore::get_strong`. -/
def InodeStore.get_strong (s : InodeStoreInner) (inode : Inode) :
    Except FsError (Inode × InodeStoreInner) :=
  match s.get inode with
  | none => .error .notFound
  | some d => InodeStore.new_with_data s d

/-- The lookup chain of `InodeStore::do_claim_inode`: by handle first, and
only as a fallback by ids, where the ids hit is kept only when the entry
holds an `O_PATH` descriptor (`FileOrHandle::File`). -/
def InodeStore.claim_lookup (s : InodeStoreInner) (handle : Option FileHandle)
    (ids : InodeIds) : Option InodeData :=
  (handle.bind (fun h => s.get_by_handle h)).orElse
    (fun _ => (s.get_by_ids ids).filter (fun d => d.file_or_handle.isFile))

/-- inode_store.rs `InodeStore::do_claim_inode`. -/
def InodeStore.do_claim_inode (s : InodeStoreInner) (handle : Option FileHandle)
    (ids : InodeIds) : Except FsError (Inode × InodeStoreInner) :=
  match InodeStore.claim_lookup s handle ids with
  | none => .error .notFound
  | some d => InodeStore.new_with_data s d

/-- inode_store.rs `InodeStore::claim_inode` (the outer wrapper only takes
the read lock). -/
def InodeStore.claim_inode (s : InodeStoreInner) (handle : Option FileHandle)
    (ids : InodeIds) : Except FsError (Inode × InodeStoreInner) :=
  InodeStore.do_claim_inode s handle ids

/-- The handle `get_or_insert` passes to `do_claim_inode`. -/
def handleOf (d : InodeData) : Option FileHandle :=
  match d.file_or_handle with
  | .file => none
  | .handle h => some h
  | .invalid => none

/-- inode_store.rs `InodeStore::get_or_insert`: claim an equivalent inode if
possible; otherwise insert with the refcount hard-set to 1 (unless the FUSE
inode ID is already taken, which is an error). -/
def InodeStore.get_or_insert (s : InodeStoreInner) (inode_data : InodeData) :
    Except FsError (Inode × InodeStoreInner) :=
  match InodeStore.do_claim_inode s (handleOf inode_data) inode_data.ids with
  | .ok r => .ok r
  | .error _ =>
    if s.contains inode_data.inode then .error .doubleUse
    else
      let d := { inode_data with refcount := 1 }
      .ok (d.inode, s.insert_new d)

/-- inode_store.rs `InodeStore::new_inode`: unconditional insert, error on
FUSE inode ID collision. -/
def InodeStore.new_inode (s : InodeStoreInner) (inode_data : InodeData) :
    Except FsError InodeStoreInner :=
  if s.contains inode_data.inode then .error .doubleUse
  else .ok (s.insert_new inode_data)

/-- inode_store.rs `InodeStore::forget_many`. -/
def InodeStore.forget_many (s : InodeStoreInner) (l : List (Inode × Nat)) : InodeStoreInner :=
  l.foldl (fun st p => st.forget_one p.1 p.2) s

/-! ## Open-flag handling (passthrough/mod.rs) -/

/-- Linux `open(2)` flag constants as used through `libc` (x86-64 values;
octal in C: ACCMODE 03, WRONLY 01, RDWR 02, CREAT 0100, EXCL 0200,
TRUNC 01000, APPEND 02000, DIRECT 040000, DIRECTORY 0200000,
NOFOLLOW 0400000, NOATIME 01000000, CLOEXEC 02000000, PATH 010000000). -/
def O_ACCMODE : Nat := 3

def O_RDONLY : Nat := 0

def O_WRONLY : Nat := 1

def O_RDWR : Nat := 2

def O_CREAT : Nat := 64

def O_EXCL : Nat := 128

def O_TRUNC : Nat := 512

def O_APPEND : Nat := 1024

def O_DIRECT : Nat := 16384

def O_DIRECTORY : Nat := 65536

def O_NOFOLLOW : Nat := 131072

def O_NOATIME : Nat := 262144

def O_CLOEXEC : Nat := 524288

def O_PATH : Nat := 2097152

/-- Bit clearing `flags & !mask` on 32-bit flag words: complement within
32 bits (flag words are u32/int values below 2^32). -/
def cmpl32 (mask : Nat) : Nat := 4294967295 ^^^ mask

/-- util.rs `is_safe_inode`: only regular files and directories may be
opened without `O_PATH`.  `S_IFMT` is 0o170000, `S_IFREG` 0o100000,
`S_IFDIR` 0o040000. -/
def is_safe_inode (mode : Nat) : Bool :=
  mode &&& 61440 == 32768 || mode &&& 61440 == 16384

/-- inode_store.rs `InodeData::open_file`, reduced to the flag word the host
`open` receives: invalid inodes fail with their stored error, unsafe modes
fail with `EBADF`, a `File`-variant inode is reopened through
`/proc/self/fd` (util.rs `reopen_fd_through_proc` clears `O_NOFOLLOW`), a
`Handle`-variant inode goes through `open_by_handle_at` with the flags
unchanged. -/
def InodeData.open_file_host_flags (d : InodeData) (flags : Nat) : Except FsError Nat :=
  match d.file_or_handle with
  | .file =>
    if is_safe_inode d.mode then .ok (flags &&& cmpl32 O_NOFOLLOW) else .error .ebadf
  | .handle _ =>
    if is_safe_inode d.mode then .ok flags else .error .ebadf
  | .invalid => .error .invalidInode

/-- The flag adjustments of passthrough/mod.rs `PassthroughFs::open_inode`
(lines 546-574): writeback promotes a write-only access mode to read-write
and strips `O_APPEND`; `O_DIRECT` is stripped unless allowed. -/
def open_inode_flag_adjust (writeback allow_direct_io : Bool) (flags : Nat) : Nat :=
  let flags1 :=
    if writeback = true ∧ flags &&& O_ACCMODE = O_WRONLY then
      (flags &&& cmpl32 O_ACCMODE) ||| O_RDWR
    else flags
  let flags2 :=
    if writeback = true ∧ flags1 &&& O_APPEND ≠ 0 then flags1 &&& cmpl32 O_APPEND
    else flags1
  if allow_direct_io = false ∧ flags2 &&& O_DIRECT ≠ 0 then flags2 &&& cmpl32 O_DIRECT
  else flags2

/-- passthrough/mod.rs `PassthroughFs::open_inode` (lines 546-574), as the
flag word given to the host: the adjustments above, then `O_CLOEXEC` is
always added before `InodeData::open_file`. -/
def PassthroughFs.open_inode (writeback allow_direct_io : Bool) (d : InodeData)
    (flags : Nat) : Except FsError Nat :=
  d.open_file_host_flags (open_inode_flag_adjust writeback allow_direct_io flags ||| O_CLOEXEC)

/-- passthrough/mod.rs `PassthroughFs::do_open` (lines 853-890), the flag
sanitation applied before `open_inode` and before recording the handle
migration info: `O_APPEND` is always cleared, `O_NOATIME` is cleared when
`cfg.clean_noatime` is set. -/
def do_open_sanitized_flags (clean_noatime : Bool) (flags : Nat) : Nat :=
  let flags1 := flags &&& cmpl32 O_APPEND
  if clean_noatime then flags1 &&& cmpl32 O_NOATIME else flags1

/-- The composite `do_open` host flag word: sanitation followed by
`open_inode` (`opendir` reaches the same path with `O_DIRECTORY` or-ed into
the incoming flags). -/
def do_open_host_flags (writeback allow_direct_io clean_noatime : Bool) (d : InodeData)
    (flags : Nat) : Except FsError Nat :=
  PassthroughFs.open_inode writeback allow_direct_io d
    (do_open_sanitized_flags clean_noatime flags)

/-- passthrough/mod.rs `create` → `do_create` → `open_relative_to` (lines
1489-1552, 1069-1099, 520-534), the flag word the host receives on the
direct creation path: the guest flags with only `O_APPEND` cleared, plus
`O_CREAT | O_EXCL` from `do_create` and `O_NOFOLLOW | O_CLOEXEC` from
`open_relative_to`. -/
def create_host_flags (flags : Nat) : Nat :=
  let create_flags := flags &&& cmpl32 O_APPEND
  create_flags ||| O_CREAT ||| O_EXCL ||| O_NOFOLLOW ||| O_CLOEXEC

/-- preserialization/mod.rs `HandleMigrationInfo`: how to re-derive a handle
on the destination (single variant `OpenInode { flags }`). -/
inductive HandleMigrationInfo where
  | openInode : Nat → HandleMigrationInfo
deriving DecidableEq

/-- preserialization/mod.rs `HandleMigrationInfo::new` (lines 114-124):
record the open flags with `O_CREAT | O_EXCL | O_TRUNC` removed. -/
def HandleMigrationInfo.new (flags : Nat) : HandleMigrationInfo :=
  .openInode (flags &&& cmpl32 (O_CREAT ||| O_EXCL ||| O_TRUNC))

/-- The migration flags `do_open` records for a handle opened with guest
flags `flags` (mod.rs line 887: `HandleMigrationInfo::new` is applied to the
sanitized flag word). -/
def do_open_recorded_migration_info (clean_noatime : Bool) (flags : Nat) :
    HandleMigrationInfo :=
  HandleMigrationInfo.new (do_open_sanitized_flags clean_noatime flags)

/-- The migration flags `create` records on its direct creation path
(mod.rs line 1545: `HandleMigrationInfo::new(flags as i32)` on the unmodified
guest flags). -/
def create_recorded_migration_info (flags : Nat) : HandleMigrationInfo :=
  HandleMigrationInfo.new flags

/-! ## Filesystem state and migration deserialization -/

/-- passthrough/mod.rs `MigrationOnError`. -/
inductive MigrationOnError where
  | abort
  | guestError
deriving DecidableEq

/-- The configuration fields of passthrough/mod.rs `Config` that the
embedded operations consult.  (`Config` has no switch for the
supplementary-group extension; that option is enabled during INIT purely
from the guest capability bit.) -/
structure Config where
  writeback : Bool
  announce_submounts : Bool
  posix_acl : Bool
  allow_direct_io : Bool
  clean_noatime : Bool
  migration_on_error : MigrationOnError
  migration_verify_handles : Bool
deriving DecidableEq

/-- What the host returns for one `openat`+`statx`+`get_file_handle_opt`
round: the identity tuple, the stat mode, and the file handle when one was
generated (`None` both in `Never` mode and when the filesystem does not
support handles). -/
structure HostNode where
  ids : InodeIds
  mode : Nat
  handle : Option FileHandle
deriving DecidableEq

/-- The host oracle: results of the host calls the deserialization code can
make.  `root` is the `openat(AT_FDCWD, cfg.root_dir, O_PATH | ...)` round,
`openAt` the `openat(parent_fd, filename, O_PATH | O_NOFOLLOW | O_CLOEXEC)`
round (keyed by the identity of the fd, i.e. the parent entry's `InodeIds`;
`none` covers both an `openat` failure and a failing `get_file` on a
handle-variant parent), and `derived` is
`FileHandle::from_fd_fail_hard` for an `O_PATH` fd (used when serializing a
`File`-variant inode into a `SerializableFileHandle`). -/
structure HostModel where
  root : Option HostNode
  openAt : InodeIds → String → Option HostNode
  derived : InodeIds → Option FileHandle

/-- `SerializableFileHandle::try_from(&FileOrHandle)` (file_handle.rs lines
187-199): a handle converts directly, a `File` derives a handle from its fd
through the host, `Invalid` propagates its stored error (`none` here). -/
def serializable_of_foh (foh : FileOrHandle) (derived : Option FileHandle) :
    Option SerializableFileHandle :=
  match foh with
  | .handle fh => some ⟨fh.mnt_id, fh.handle⟩
  | .file => derived.map (fun fh => ⟨fh.mnt_id, fh.handle⟩)
  | .invalid => none

/-- preserialization/mod.rs `InodeMigrationInfo::new_root` (lines 95-102)
via `new_internal`: the `RootNode` location, with the inode's serializable
file handle attached iff `migration_verify_handles` is configured (deriving
it may fail). -/
def InodeMigrationInfo.new_root (verify_handles : Bool) (foh : FileOrHandle)
    (derived : Option FileHandle) : Except FsError InodeMigrationInfo :=
  if verify_handles then
    match serializable_of_foh foh derived with
    | some fh => .ok { location := .rootNode, file_handle := some fh }
    | none => .error .hostOpenFailed
  else .ok { location := .rootNode, file_handle := none }

/-- passthrough/mod.rs `PassthroughFs::open_root_node` (lines 1184-1236):
open the configured root directory, derive its identity/handle, build the
root migration info (a failure there is only warned about), and insert the
root entry with refcount 2 via `new_inode`. -/
def PassthroughFs.open_root_node (cfg : Config) (host : HostModel)
    (s : InodeStoreInner) : Except FsError InodeStoreInner :=
  match host.root with
  | none => .error .hostOpenFailed
  | some node =>
    let file_or_handle :=
      match node.handle with
      | some h => FileOrHandle.handle h
      | none => FileOrHandle.file
    let migration_info :=
      match InodeMigrationInfo.new_root cfg.migration_verify_handles file_or_handle
          (host.derived node.ids) with
      | .ok mi => some mi
      | .error _ => none
    InodeStore.new_inode s
      { inode := ROOT_ID, file_or_handle := file_or_handle, refcount := 2,
        ids := node.ids, mode := node.mode, migration_info := migration_info }

/-- passthrough/mod.rs `HandleDataFile`: the open host file of a handle
(represented by the flag word its host `open` received) or the invalid
placeholder carrying the migration error. -/
inductive HandleDataFile where
  | fileAt : Nat → HandleDataFile
  | invalid : HandleDataFile
deriving DecidableEq

/-- passthrough/mod.rs `HandleData`. -/
structure HandleData where
  inode : Inode
  file : HandleDataFile
  migration_info : HandleMigrationInfo
deriving DecidableEq

/-- The mutable `PassthroughFs` state touched by the embedded operations:
the inode store, the handle table, the ID counters, and the negotiated
option flags (atomics in the source). -/
structure FsState where
  inodes : InodeStoreInner
  handles : List (Handle × HandleData)
  next_inode : Nat
  next_handle : Nat
  writeback : Bool
  announce_submounts : Bool
  posix_acl : Bool
  sup_group_extension : Bool

/-! ### Serialized state (device_state/serialized.rs) -/

/-- serialized.rs `InodeLocation`. -/
inductive SerInodeLocation where
  | rootNode
  | path : Inode → String → SerInodeLocation
  | invalid
  | fullPath : String → SerInodeLocation
deriving DecidableEq

/-- serialized.rs `Inode`. -/
structure SerInode where
  id : Inode
  refcount : Nat
  location : SerInodeLocation
  file_handle : Option SerializableFileHandle
deriving DecidableEq

/-- serialized.rs `Handle` with its single-variant `HandleSource::OpenInode
{ flags }` flattened into the flag word. -/
structure SerHandle where
  id : Handle
  inode : Inode
  flags : Nat
deriving DecidableEq

/-- serialized.rs `NegotiatedOpts`. -/
structure NegotiatedOpts where
  writeback : Bool
  announce_submounts : Bool
  posix_acl : Bool
  sup_group_extension : Bool
deriving DecidableEq

/-- serialized.rs `PassthroughFsV1`. -/
structure PassthroughFsV1 where
  inodes : List SerInode
  next_inode : Nat
  handles : List SerHandle
  next_handle : Nat
  negotiated_opts : NegotiatedOpts

/-! ### Deserialization (device_state/deserialization.rs) -/

/-- deserialization.rs `NegotiatedOpts::apply` (lines 86-129): an option the
source had enabled but the destination configuration disables aborts the
migration; otherwise every negotiated flag is stored as the source sent it
(the supplementary-group extension unconditionally, it has no configuration
switch). -/
def NegotiatedOpts.apply (o : NegotiatedOpts) (cfg : Config) (fs : FsState) :
    Except FsError FsState :=
  if cfg.writeback = false ∧ o.writeback = true then .error .writebackConflict
  else
    let fs1 := { fs with writeback := o.writeback }
    if cfg.announce_submounts = false ∧ o.announce_submounts = true then
      .error .announceSubmountsConflict
    else
      let fs2 := { fs1 with announce_submounts := o.announce_submounts }
      if cfg.posix_acl = false ∧ o.posix_acl = true then .error .posixAclConflict
      else
        let fs3 := { fs2 with posix_acl := o.posix_acl }
        .ok { fs3 with sup_group_extension := o.sup_group_extension }

/-- deserialization.rs `Inode::deserialize_path` (lines 232-279): open
`filename` under the parent, stat it, and build the new entry (handle-first
when the host produced a file handle).  The parent strong reference the
caller hands in is dropped by the caller right after this call returns. -/
def SerInode.deserialize_path (si : SerInode) (host : HostModel)
    (parentData : InodeData) (filename : String) : Except FsError InodeData :=
  match parentData.file_or_handle with
  | .invalid => .error .invalidInode
  | _ =>
    match host.openAt parentData.ids filename with
    | none => .error .hostOpenFailed
    | some node =>
      let file_or_handle :=
        match node.handle with
        | some h => FileOrHandle.handle h
        | none => FileOrHandle.file
      .ok { inode := si.id, file_or_handle := file_or_handle, refcount := si.refcount,
            ids := node.ids, mode := node.mode, migration_info := none }

/-- deserialization.rs `Inode::deserialize_invalid_inode` (lines 285-304):
under the `Abort` policy the error is fatal; under `GuestError` the inode is
added as an explicitly invalid placeholder with defaulted identity. -/
def SerInode.deserialize_invalid_inode (si : SerInode) (cfg : Config) (err : FsError) :
    Except FsError InodeData :=
  match cfg.migration_on_error with
  | .abort => .error err
  | .guestError =>
    .ok { inode := si.id, file_or_handle := .invalid, refcount := si.refcount,
          ids := ⟨0, 0, 0⟩, mode := 0, migration_info := none }

/-- deserialization.rs `Inode::check_file_handle` (lines 307-320): when the
source sent a reference handle, compare it (mount ID disregarded) against
the handle of the freshly opened inode. -/
def SerInode.check_file_handle (si : SerInode) (host : HostModel) (d : InodeData) :
    Except FsError Unit :=
  match si.file_handle with
  | none => .ok ()
  | some refFh =>
    match serializable_of_foh d.file_or_handle (host.derived d.ids) with
    | none => .error .hostOpenFailed
    | some isFh =>
      if isFh.eq_without_mount_id refFh then .ok () else .error .handleMismatch

/-- deserialization.rs `Inode::deserialize_with_fs` (lines 131-226).
`Ok (false, _)` asks for the inode to be deferred to a later pass.  In the
`Path` branch the parent strong reference is taken without increment (the
source accounted for it in the parent's refcount) and dropped again by
moving it into `deserialize_path`, i.e. the parent is `forget_one`-d by 1;
in the `FullPath` branch the freshly taken root strong reference is dropped
the same way. -/
def SerInode.deserialize_with_fs (si : SerInode) (cfg : Config) (host : HostModel)
    (fs : FsState) : Except FsError (Bool × FsState) :=
  match si.location with
  | .rootNode =>
    if si.id ≠ ROOT_ID then .error .nonRootAsRoot
    else
      match PassthroughFs.open_root_node cfg host fs.inodes with
      | .error e => .error e
      | .ok inodes =>
        match inodes.get ROOT_ID with
        | none => .error .notFound
        | some rootData0 =>
          let rootData := { rootData0 with refcount := si.refcount }
          let inodes1 := { inodes with data := ainsert inodes.data ROOT_ID rootData }
          match si.check_file_handle host rootData with
          | .error e => .error e
          | .ok _ => .ok (true, { fs with inodes := inodes1 })
  | .path parent filename =>
    if si.id = ROOT_ID then .error .pathForRootNode
    else
      match fs.inodes.get parent with
      | none => .ok (false, fs)
      | some parentData =>
        let pathResult := si.deserialize_path host parentData filename
        let inodes1 := fs.inodes.forget_one parent 1
        match (match pathResult with
               | .ok d => Except.ok d
               | .error err => si.deserialize_invalid_inode cfg err) with
        | .error e => .error e
        | .ok d =>
          match (match si.check_file_handle host d with
                 | .ok _ => Except.ok d
                 | .error err => si.deserialize_invalid_inode cfg err) with
          | .error e => .error e
          | .ok d2 =>
            match InodeStore.new_inode inodes1 d2 with
            | .error e => .error e
            | .ok inodes2 => .ok (true, { fs with inodes := inodes2 })
  | .invalid =>
    match si.deserialize_invalid_inode cfg .sourceLostInode with
    | .error e => .error e
    | .ok d =>
      match InodeStore.new_inode fs.inodes d with
      | .error e => .error e
      | .ok inodes1 => .ok (true, { fs with inodes := inodes1 })
  | .fullPath filename =>
    if si.id = ROOT_ID then .error .pathForRootNode
    else
      match InodeStore.get_strong fs.inodes ROOT_ID with
      | .error _ => .ok (false, fs)
      | .ok (_, inodes0) =>
        match inodes0.get ROOT_ID with
        | none => .error .notFound
        | some rootData =>
          let pathResult := si.deserialize_path host rootData filename
          let inodes1 := inodes0.forget_one ROOT_ID 1
          match (match pathResult with
                 | .ok d => Except.ok d
                 | .error err => si.deserialize_invalid_inode cfg err) with
          | .error e => .error e
          | .ok d =>
            match InodeStore.new_inode inodes1 d with
            | .error e => .error e
            | .ok inodes2 => .ok (true, { fs with inodes := inodes2 })

/-- deserialization.rs `Handle::deserialize_with_fs` (lines 323-377): look
the inode up, open it with the recorded flags (no writeback adjustment is
applied on this path), fall back to an invalid-placeholder handle file under
the `GuestError` policy, and insert the handle entry. -/
def SerHandle.deserialize_with_fs (sh : SerHandle) (cfg : Config) (fs : FsState) :
    Except FsError FsState :=
  match fs.inodes.get sh.inode with
  | none => .error .notFound
  | some inode =>
    match (match inode.open_file_host_flags sh.flags with
           | .ok hostFlags => Except.ok (HandleDataFile.fileAt hostFlags)
           | .error err =>
             match cfg.migration_on_error with
             | .abort => Except.error err
             | .guestError => Except.ok HandleDataFile.invalid) with
    | .error e => .error e
    | .ok file =>
      let migration_info := HandleMigrationInfo.openInode sh.flags
      let hd : HandleData := { inode := sh.inode, file := file, migration_info := migration_info }
      .ok { fs with handles := ainsert fs.handles sh.id hd }

/-- One pass of the deferral loop in `PassthroughFsV1::apply` (lines 50-63):
try every pending serialized inode once, keep the deferred ones, and report
whether any entry was processed.  (The source iterates with `swap_remove`,
which permutes the pending list within a pass; the pass still attempts each
pending inode exactly once, which is the property modelled here.) -/
def applyPass (cfg : Config) (host : HostModel) :
    List SerInode → FsState → Except FsError (List SerInode × Bool × FsState)
  | [], fs => .ok ([], false, fs)
  | si :: rest, fs =>
    match si.deserialize_with_fs cfg host fs with
    | .error e => .error e
    | .ok (true, fs1) =>
      match applyPass cfg host rest fs1 with
      | .error e => .error e
      | .ok (rem, _, fs2) => .ok (rem, true, fs2)
    | .ok (false, fs1) =>
      match applyPass cfg host rest fs1 with
      | .error e => .error e
      | .ok (rem, progressed, fs2) => .ok (si :: rem, progressed, fs2)

/-- The outer deferral loop of `PassthroughFsV1::apply`: repeat passes while
progress is made; a pass over a non-empty list that processes nothing fails
with the unresolved-references error.  Each progressing pass shortens the
pending list, so fuel `pending.length + 1` never runs out (the fuel-0 case
mirrors the same error). -/
def applyLoop (cfg : Config) (host : HostModel) :
    Nat → List SerInode → FsState → Except FsError FsState
  | _, [], fs => .ok fs
  | 0, _ :: _, _ => .error .unresolvedReferences
  | fuel + 1, pending, fs =>
    match applyPass cfg host pending fs with
    | .error e => .error e
    | .ok (rem, progressed, fs1) =>
      if progressed then applyLoop cfg host fuel rem fs1
      else .error .unresolvedReferences

/-- deserialization.rs `PassthroughFsV1::apply` (lines 38-84): apply the
negotiated options, clear the inode store, run the deferral loop over the
serialized inodes, restore the ID counters, and reconstruct the handles. -/
def PassthroughFsV1.apply (v : PassthroughFsV1) (cfg : Config) (host : HostModel)
    (fs : FsState) : Except FsError FsState :=
  match v.negotiated_opts.apply cfg fs with
  | .error e => .error e
  | .ok fs1 =>
    let fs2 := { fs1 with inodes := fs1.inodes.clear }
    match applyLoop cfg host (v.inodes.length + 1) v.inodes fs2 with
    | .error e => .error e
    | .ok fs3 =>
      let fs4 := { fs3 with next_inode := v.next_inode, handles := [] }
      match v.handles.foldlM (fun f sh => SerHandle.deserialize_with_fs sh cfg f) fs4 with
      | .error e => .error e
      | .ok fs5 => .ok { fs5 with next_handle := v.next_handle }

/-! ## Operation sequences over the inode store -/

/-- The public store operations a client can drive the inode store with
(`forget_many` covers `batch_forget`; `claimInode`/`getStrong`/`getOrInsert`
model the strong-reference creations, with the reference results themselves
discarded). -/
inductive StoreOp where
  | claimInode : Option FileHandle → InodeIds → StoreOp
  | getStrong : Inode → StoreOp
  | getOrInsert : InodeData → StoreOp
  | newInode : InodeData → StoreOp
  | forgetOne : Inode → Nat → StoreOp
  | forgetMany : List (Inode × Nat) → StoreOp
  | removeOp : Inode → StoreOp
  | clearOp : StoreOp

/-- State effect of one store operation (failed operations leave the store
unchanged). -/
def applyOp (s : InodeStoreInner) (op : StoreOp) : InodeStoreInner :=
  match op with
  | .claimInode h ids =>
    match InodeStore.claim_inode s h ids with
    | .ok (_, s') => s'
    | .error _ => s
  | .getStrong i =>
    match InodeStore.get_strong s i with
    | .ok (_, s') => s'
    | .error _ => s
  | .getOrInsert d =>
    match InodeStore.get_or_insert s d with
    | .ok (_, s') => s'
    | .error _ => s
  | .newInode d =>
    match InodeStore.new_inode s d with
    | .ok s' => s'
    | .error _ => s
  | .forgetOne i n => s.forget_one i n
  | .forgetMany l => InodeStore.forget_many s l
  | .removeOp i => s.remove i
  | .clearOp => s.clear

def applyOps (s : InodeStoreInner) (ops : List StoreOp) : InodeStoreInner :=
  ops.foldl applyOp s

/-- The three-index consistency invariant the spec states: every stored
entry is keyed by its own inode ID, its identity tuple indexes back to it,
and, when it holds a file handle, so does that handle. -/
def Consistent (s : InodeStoreInner) : Prop :=
  ∀ i d, s.get i = some d →
    d.inode = i ∧ s.inode_by_ids d.ids = some i ∧
    ∀ h, d.file_or_handle = FileOrHandle.handle h → s.inode_by_handle h = some i

/-- Index soundness: every `by_ids` entry points at a live inode carrying
those ids. -/
def IdsSound (s : InodeStoreInner) : Prop :=
  ∀ ids i, s.inode_by_ids ids = some i → ∃ d, s.get i = some d ∧ d.ids = ids

/-- Index soundness: every `by_handle` entry points at a live inode holding
that handle. -/
def HandleSound (s : InodeStoreInner) : Prop :=
  ∀ h i, s.inode_by_handle h = some i →
    ∃ d, s.get i = some d ∧ d.file_or_handle = FileOrHandle.handle h

def StoreInv (s : InodeStoreInner) : Prop :=
  Consistent s ∧ IdsSound s ∧ HandleSound s

/-- No live entry shares `d`'s identity tuple, nor (when `d` carries one)
its file handle. -/
def noAlias (s : InodeStoreInner) (d : InodeData) : Bool :=
  (s.data.all fun p => decide (p.2.ids ≠ d.ids)) &&
  (match handleOf d with
   | some h => s.data.all fun p => decide (p.2.file_or_handle ≠ FileOrHandle.handle h)
   | none => true)

/-- Freshness precondition of one operation: an insertion that actually
takes place must not alias a live entry's ids or handle. -/
def freshFor (s : InodeStoreInner) (op : StoreOp) : Bool :=
  match op with
  | .newInode d => s.contains d.inode || noAlias s d
  | .getOrInsert d =>
    isOkE (InodeStore.do_claim_inode s (handleOf d) d.ids) || s.contains d.inode ||
      noAlias s d
  | _ => true

def opsFresh : InodeStoreInner → List StoreOp → Bool
  | _, [] => true
  | s, op :: rest => freshFor s op && opsFresh (applyOp s op) rest

/-! ## Invariant lemmas -/

theorem storeInv_empty : StoreInv InodeStoreInner.empty := by
  refine ⟨?_, ?_, ?_⟩ <;> intro a b h <;> simp [InodeStoreInner.empty, InodeStoreInner.get,
    InodeStoreInner.inode_by_ids, InodeStoreInner.inode_by_handle, alookup] at h

theorem get_unique (s : InodeStoreInner) (i : Inode) (d e : InodeData)
    (h1 : s.get i = some d) (h2 : s.get i = some e) : d = e := by
  rw [h1] at h2; exact Option.some.inj h2


theorem noAlias_ids (s : InodeStoreInner) (d : InodeData) (h : noAlias s d = true)
    (i : Inode) (e : InodeData) (hget : s.get i = some e) : e.ids ≠ d.ids := by
  have hall := (Bool.and_eq_true_iff.mp h).1
  have hmem := alookup_mem s.data i e hget
  have hd := List.all_eq_true.mp hall (i, e) hmem
  exact of_decide_eq_true hd

theorem noAlias_handle (s : InodeStoreInner) (d : InodeData) (fh : FileHandle)
    (h : noAlias s d = true) (hfoh : d.file_or_handle = FileOrHandle.handle fh)
    (i : Inode) (e : InodeData) (hget : s.get i = some e) :
    e.file_or_handle ≠ FileOrHandle.handle fh := by
  have hall := (Bool.and_eq_true_iff.mp h).2
  have hho : handleOf d = some fh := by simp [handleOf, hfoh]
  rw [hho] at hall
  have hmem := alookup_mem s.data i e hget
  have hd := List.all_eq_true.mp hall (i, e) hmem
  exact of_decide_eq_true hd

/-- Replacing a stored entry by one with the same inode ID, identity tuple
and file-or-handle (e.g. a refcount update) preserves the invariant. -/
theorem inv_update_entry (s : InodeStoreInner) (i : Inode) (d d' : InodeData)
    (hinv : StoreInv s) (hget : s.get i = some d)
    (hi : d'.inode = d.inode) (hids : d'.ids = d.ids)
    (hfoh : d'.file_or_handle = d.file_or_handle) :
    StoreInv { s with data := ainsert s.data i d' } := by
  obtain ⟨hC, hids_sound, hh_sound⟩ := hinv
  obtain ⟨hdi, hdids, hdh⟩ := hC i d hget
  refine ⟨?_, ?_, ?_⟩
  · intro j e hj
    simp only [InodeStoreInner.get, alookup_ainsert] at hj
    by_cases hji : j = i
    · subst hji
      simp only [if_pos rfl] at hj
      cases hj
      refine ⟨by rw [hi, hdi], ?_, ?_⟩
      · simpa [InodeStoreInner.inode_by_ids, hids] using hdids
      · intro h hh
        rw [hfoh] at hh
        simpa [InodeStoreInner.inode_by_handle] using hdh h hh
    · simp only [if_neg hji] at hj
      exact hC j e hj
  · intro ids i0 hlook
    simp only [InodeStoreInner.inode_by_ids] at hlook
    obtain ⟨e, he, heids⟩ := hids_sound ids i0 hlook
    by_cases hi0 : i0 = i
    · subst hi0
      refine ⟨d', ?_, ?_⟩
      · simp [InodeStoreInner.get, alookup_ainsert]
      · rw [hids, ← heids, get_unique s i0 d e hget he]
    · refine ⟨e, ?_, heids⟩
      simpa [InodeStoreInner.get, alookup_ainsert, hi0] using he
  · intro h i0 hlook
    simp only [InodeStoreInner.inode_by_handle] at hlook
    obtain ⟨e, he, hef⟩ := hh_sound h i0 hlook
    by_cases hi0 : i0 = i
    · subst hi0
      refine ⟨d', ?_, ?_⟩
      · simp [InodeStoreInner.get, alookup_ainsert]
      · rw [hfoh, ← hef, get_unique s i0 d e hget he]
    · refine ⟨e, ?_, hef⟩
      simpa [InodeStoreInner.get, alookup_ainsert, hi0] using he

theorem inv_insert_new (s : InodeStoreInner) (d : InodeData)
    (hinv : StoreInv s) (hnew : s.get d.inode = none) (hfresh : noAlias s d = true) :
    StoreInv (s.insert_new d) := by
  obtain ⟨hC, hids_sound, hh_sound⟩ := hinv
  refine ⟨?_, ?_, ?_⟩
  · -- Consistent
    intro j e hj
    simp only [InodeStoreInner.insert_new, InodeStoreInner.get, alookup_ainsert] at hj
    by_cases hji : j = d.inode
    · subst hji
      simp only [if_pos rfl] at hj
      cases hj
      refine ⟨rfl, ?_, ?_⟩
      · simp [InodeStoreInner.insert_new, InodeStoreInner.inode_by_ids, alookup_ainsert]
      · intro h hh
        simp only [InodeStoreInner.insert_new, InodeStoreInner.inode_by_handle]
        rw [hh]
        simp [alookup_ainsert]
    · simp only [if_neg hji] at hj
      obtain ⟨hei, heids, heh⟩ := hC j e hj
      refine ⟨hei, ?_, ?_⟩
      · have hne : e.ids ≠ d.ids := noAlias_ids s d hfresh j e hj
        simp only [InodeStoreInner.insert_new, InodeStoreInner.inode_by_ids, alookup_ainsert,
          if_neg hne]
        exact heids
      · intro h hh
        simp only [InodeStoreInner.insert_new, InodeStoreInner.inode_by_handle]
        have heh' := heh h hh
        match hd : d.file_or_handle with
        | .handle h0 =>
          have hne : h ≠ h0 := by
            intro hcontra
            subst hcontra
            exact noAlias_handle s d h hfresh hd j e hj hh
          simpa [alookup_ainsert, hne] using heh'
        | .file => simpa using heh'
        | .invalid => simpa using heh'
  · -- IdsSound
    intro ids i0 hlook
    simp only [InodeStoreInner.insert_new, InodeStoreInner.inode_by_ids,
      alookup_ainsert] at hlook
    by_cases hids : ids = d.ids
    · rw [if_pos hids] at hlook
      cases hlook
      refine ⟨d, ?_, hids.symm⟩
      simp [InodeStoreInner.insert_new, InodeStoreInner.get, alookup_ainsert]
    · rw [if_neg hids] at hlook
      obtain ⟨e, he, heids⟩ := hids_sound ids i0 hlook
      have hne : i0 ≠ d.inode := by
        intro hcontra
        rw [hcontra, hnew] at he
        exact Option.noConfusion he
      refine ⟨e, ?_, heids⟩
      simpa [InodeStoreInner.insert_new, InodeStoreInner.get, alookup_ainsert, hne] using he
  · -- HandleSound
    intro h i0 hlook
    simp only [InodeStoreInner.insert_new, InodeStoreInner.inode_by_handle] at hlook
    have hold : ∀ hres : alookup s.by_handle h = some i0,
        ∃ e, (s.insert_new d).get i0 = some e ∧ e.file_or_handle = FileOrHandle.handle h := by
      intro hres
      obtain ⟨e, he, hef⟩ := hh_sound h i0 hres
      have hne : i0 ≠ d.inode := by
        intro hcontra
        rw [hcontra, hnew] at he
        exact Option.noConfusion he
      refine ⟨e, ?_, hef⟩
      simpa [InodeStoreInner.insert_new, InodeStoreInner.get, alookup_ainsert, hne] using he
    match hd : d.file_or_handle with
    | .handle h0 =>
      rw [hd] at hlook
      by_cases hh0 : h = h0
      · subst hh0
        rw [alookup_ainsert, if_pos rfl] at hlook
        cases hlook
        refine ⟨d, ?_, hd⟩
        simp [InodeStoreInner.insert_new, InodeStoreInner.get, alookup_ainsert]
      · rw [alookup_ainsert, if_neg hh0] at hlook
        exact hold hlook
    | .file =>
      rw [hd] at hlook
      exact hold hlook
    | .invalid =>
      rw [hd] at hlook
      exact hold hlook

/-- Shape of `removeBase` on a present entry. -/
theorem removeBase_eq (s : InodeStoreInner) (i : Inode) (d : InodeData)
    (hget : s.get i = some d) :
    s.removeBase i =
      ({ data := aerase s.data i,
         by_ids := aerase s.by_ids d.ids,
         by_handle :=
           match d.file_or_handle with
           | FileOrHandle.handle h => aerase s.by_handle h
           | _ => s.by_handle },
       match d.migration_info with
       | some mi =>
         match mi.location with
         | InodeLocationPre.path parent _ => some parent
         | InodeLocationPre.rootNode => none
       | none => none) := by
  unfold InodeStoreInner.removeBase
  rw [hget]
  dsimp only
  rcases hfoh : d.file_or_handle with _ | h | _ <;>
    rcases hmi : d.migration_info with _ | ⟨_ | ⟨p, fn⟩, fh⟩ <;> rfl

theorem inv_removeBase (s : InodeStoreInner) (i : Inode) (hinv : StoreInv s) :
    StoreInv (s.removeBase i).1 := by
  obtain ⟨hC, hids_sound, hh_sound⟩ := hinv
  cases hget : s.get i with
  | none =>
    unfold InodeStoreInner.removeBase
    rw [hget]
    exact ⟨hC, hids_sound, hh_sound⟩
  | some d =>
    obtain ⟨hdi, hdids, hdh⟩ := hC i d hget
    rw [removeBase_eq s i d hget]
    refine ⟨?_, ?_, ?_⟩
    · intro j e hj
      simp only [InodeStoreInner.get, alookup_aerase] at hj
      by_cases hji : j = i
      · simp [hji] at hj
      · rw [if_neg hji] at hj
        obtain ⟨hei, heids, heh⟩ := hC j e hj
        refine ⟨hei, ?_, ?_⟩
        · have hneids : e.ids ≠ d.ids := by
            intro hcontra
            rw [InodeStoreInner.inode_by_ids] at heids hdids
            rw [hcontra, hdids] at heids
            exact hji (Option.some.inj heids).symm
          simp only [InodeStoreInner.inode_by_ids, alookup_aerase, if_neg hneids]
          exact heids
        · intro h hh
          have heh' := heh h hh
          simp only [InodeStoreInner.inode_by_handle] at heh' ⊢
          match hd : d.file_or_handle with
          | .handle h0 =>
            have hne : h ≠ h0 := by
              intro hcontra
              subst hcontra
              have hdh' := hdh h (by rw [hd])
              simp only [InodeStoreInner.inode_by_handle] at hdh'
              rw [hdh'] at heh'
              exact hji (Option.some.inj heh').symm
            simpa [alookup_aerase, hne] using heh'
          | .file => simpa using heh'
          | .invalid => simpa using heh'
    · intro ids i0 hlook
      simp only [InodeStoreInner.inode_by_ids, alookup_aerase] at hlook
      by_cases hids : ids = d.ids
      · simp [hids] at hlook
      · rw [if_neg hids] at hlook
        obtain ⟨e, he, heids⟩ := hids_sound ids i0 hlook
        have hne : i0 ≠ i := by
          intro hcontra
          subst hcontra
          have hde : d = e := get_unique s i0 d e hget he
          subst hde
          exact hids heids.symm
        refine ⟨e, ?_, heids⟩
        simpa [InodeStoreInner.get, alookup_aerase, hne] using he
    · intro h i0 hlook
      simp only [InodeStoreInner.inode_by_handle] at hlook
      match hd : d.file_or_handle with
      | .handle h0 =>
        rw [hd] at hlook
        by_cases hh0 : h = h0
        · simp [alookup_aerase, hh0] at hlook
        · rw [alookup_aerase, if_neg hh0] at hlook
          obtain ⟨e, he, hef⟩ := hh_sound h i0 hlook
          have hne : i0 ≠ i := by
            intro hcontra
            subst hcontra
            have hde : d = e := get_unique s i0 d e hget he
            subst hde
            rw [hd] at hef
            exact hh0 (by cases hef; rfl)
          refine ⟨e, ?_, hef⟩
          simpa [InodeStoreInner.get, alookup_aerase, hne] using he
      | .file =>
        rw [hd] at hlook
        obtain ⟨e, he, hef⟩ := hh_sound h i0 hlook
        have hne : i0 ≠ i := by
          intro hcontra
          subst hcontra
          have hde : d = e := get_unique s i0 d e hget he
          subst hde
          rw [hd] at hef
          exact FileOrHandle.noConfusion hef
        refine ⟨e, ?_, hef⟩
        simpa [InodeStoreInner.get, alookup_aerase, hne] using he
      | .invalid =>
        rw [hd] at hlook
        obtain ⟨e, he, hef⟩ := hh_sound h i0 hlook
        have hne : i0 ≠ i := by
          intro hcontra
          subst hcontra
          have hde : d = e := get_unique s i0 d e hget he
          subst hde
          rw [hd] at hef
          exact FileOrHandle.noConfusion hef
        refine ⟨e, ?_, hef⟩
        simpa [InodeStoreInner.get, alookup_aerase, hne] using he

theorem forgetOneFuel_succ_none (f : Nat) (s : InodeStoreInner) (i : Inode) (n : Nat)
    (h : s.get i = none) : InodeStoreInner.forgetOneFuel (f + 1) s i n = s := by
  unfold InodeStoreInner.forgetOneFuel
  rw [h]

theorem forgetOneFuel_succ_some (f : Nat) (s : InodeStoreInner) (i : Inode) (n : Nat)
    (d : InodeData) (h : s.get i = some d) :
    InodeStoreInner.forgetOneFuel (f + 1) s i n =
      (if d.refcount - n = 0 then
        match InodeStoreInner.removeBase
            { s with data := ainsert s.data i { d with refcount := d.refcount - n } } i with
        | (s'', none) => s''
        | (s'', some parent) => InodeStoreInner.forgetOneFuel f s'' parent 1
      else { s with data := ainsert s.data i { d with refcount := d.refcount - n } }) := by
  rw [InodeStoreInner.forgetOneFuel.eq_def]
  dsimp only
  rw [h]

theorem get_none_removeBase (s : InodeStoreInner) (i k : Inode)
    (h : s.get k = none) : ((s.removeBase i).1).get k = none := by
  cases hget : s.get i with
  | none =>
    unfold InodeStoreInner.removeBase
    rw [hget]
    exact h
  | some d =>
    rw [removeBase_eq s i d hget]
    simp only [InodeStoreInner.get, alookup_aerase]
    by_cases hk : k = i
    · simp [hk]
    · rw [if_neg hk]
      exact h

theorem get_none_forgetOneFuel (f : Nat) :
    ∀ (s : InodeStoreInner) (i : Inode) (n : Nat) (k : Inode),
      s.get k = none → (InodeStoreInner.forgetOneFuel f s i n).get k = none := by
  induction f with
  | zero => intro s i n k h; exact h
  | succ f ih =>
    intro s i n k h
    cases hget : s.get i with
    | none => rw [forgetOneFuel_succ_none f s i n hget]; exact h
    | some d =>
      rw [forgetOneFuel_succ_some f s i n d hget]
      have hki : k ≠ i := by
        intro hcontra
        rw [hcontra, hget] at h
        exact Option.noConfusion h
      have h' : InodeStoreInner.get
          { s with data := ainsert s.data i { d with refcount := d.refcount - n } } k = none := by
        simp only [InodeStoreInner.get, alookup_ainsert, if_neg hki]
        exact h
      by_cases hz : d.refcount - n = 0
      · rw [if_pos hz]
        cases hrb : InodeStoreInner.removeBase
            { s with data := ainsert s.data i { d with refcount := d.refcount - n } } i with
        | mk s'' popt =>
          have hs'' : s''.get k = none := by
            have := get_none_removeBase
              { s with data := ainsert s.data i { d with refcount := d.refcount - n } } i k h'
            rw [hrb] at this
            exact this
          cases popt with
          | none => exact hs''
          | some parent => exact ih s'' parent 1 k hs''
      · rw [if_neg hz]
        exact h'

theorem inv_forgetOneFuel (f : Nat) :
    ∀ (s : InodeStoreInner) (i : Inode) (n : Nat),
      StoreInv s → StoreInv (InodeStoreInner.forgetOneFuel f s i n) := by
  induction f with
  | zero => intro s i n h; exact h
  | succ f ih =>
    intro s i n hinv
    cases hget : s.get i with
    | none => rw [forgetOneFuel_succ_none f s i n hget]; exact hinv
    | some d =>
      rw [forgetOneFuel_succ_some f s i n d hget]
      have hinv' : StoreInv
          { s with data := ainsert s.data i { d with refcount := d.refcount - n } } :=
        inv_update_entry s i d { d with refcount := d.refcount - n } hinv hget rfl rfl rfl
      by_cases hz : d.refcount - n = 0
      · rw [if_pos hz]
        cases hrb : InodeStoreInner.removeBase
            { s with data := ainsert s.data i { d with refcount := d.refcount - n } } i with
        | mk s'' popt =>
          have hs'' : StoreInv s'' := by
            have := inv_removeBase
              { s with data := ainsert s.data i { d with refcount := d.refcount - n } } i hinv'
            rw [hrb] at this
            exact this
          cases popt with
          | none => exact hs''
          | some parent => exact ih s'' parent 1 hs''
      · rw [if_neg hz]
        exact hinv'

theorem inv_forget_one (s : InodeStoreInner) (i : Inode) (n : Nat) (hinv : StoreInv s) :
    StoreInv (s.forget_one i n) :=
  inv_forgetOneFuel _ s i n hinv

theorem inv_remove (s : InodeStoreInner) (i : Inode) (hinv : StoreInv s) :
    StoreInv (s.remove i) := by
  unfold InodeStoreInner.remove
  cases hrb : s.removeBase i with
  | mk s' popt =>
    have hs' : StoreInv s' := by
      have := inv_removeBase s i hinv
      rw [hrb] at this
      exact this
    cases popt with
    | none => exact hs'
    | some parent => exact inv_forgetOneFuel _ s' parent 1 hs'

theorem inv_forget_many (s : InodeStoreInner) (l : List (Inode × Nat)) (hinv : StoreInv s) :
    StoreInv (InodeStore.forget_many s l) := by
  induction l generalizing s with
  | nil => exact hinv
  | cons p rest ih =>
    exact ih (s.forget_one p.1 p.2) (inv_forget_one s p.1 p.2 hinv)

theorem inv_clear (s : InodeStoreInner) : StoreInv s.clear := by
  refine ⟨?_, ?_, ?_⟩ <;> intro a b h <;>
    simp [InodeStoreInner.clear, InodeStoreInner.get, InodeStoreInner.inode_by_ids,
      InodeStoreInner.inode_by_handle, alookup] at h

/-- Whatever `claim_lookup` finds is a stored entry, stored at its own
inode ID. -/
theorem claim_lookup_stored (s : InodeStoreInner) (handle : Option FileHandle)
    (ids : InodeIds) (d : InodeData) (hinv : StoreInv s)
    (h : InodeStore.claim_lookup s handle ids = some d) : s.get d.inode = some d := by
  obtain ⟨hC, _, _⟩ := hinv
  unfold InodeStore.claim_lookup at h
  cases hb : handle.bind (fun h => s.get_by_handle h) with
  | some e =>
    rw [hb] at h
    simp only [Option.orElse] at h
    cases h
    cases handle with
    | none => simp at hb
    | some fh =>
      simp only [Option.bind] at hb
      unfold InodeStoreInner.get_by_handle at hb
      cases hl : s.inode_by_handle fh with
      | none => rw [hl] at hb; simp at hb
      | some i0 =>
        rw [hl] at hb
        simp only [Option.bind] at hb
        have hi : d.inode = i0 := (hC i0 d hb).1
        rw [hi]
        exact hb
  | none =>
    rw [hb] at h
    simp only [Option.orElse] at h
    cases hg : s.get_by_ids ids with
    | none => rw [hg] at h; simp [Option.filter] at h
    | some e =>
      rw [hg] at h
      simp only [Option.filter] at h
      by_cases hf : e.file_or_handle.isFile = true
      · rw [if_pos hf] at h
        cases h
        unfold InodeStoreInner.get_by_ids at hg
        cases hl : s.inode_by_ids ids with
        | none => rw [hl] at hg; simp at hg
        | some i0 =>
          rw [hl] at hg
          simp only [Option.bind] at hg
          have hi : d.inode = i0 := (hC i0 d hg).1
          rw [hi]
          exact hg
      · rw [if_neg hf] at h
        exact Option.noConfusion h

theorem inv_new_with_data (s : InodeStoreInner) (d : InodeData) (r : Inode)
    (s' : InodeStoreInner) (hinv : StoreInv s) (hget : s.get d.inode = some d)
    (h : InodeStore.new_with_data s d = .ok (r, s')) : StoreInv s' := by
  unfold InodeStore.new_with_data at h
  cases hrc : increment_refcount_for d.refcount with
  | none => rw [hrc] at h; exact Except.noConfusion h
  | some rc =>
    rw [hrc] at h
    cases h
    exact inv_update_entry s d.inode d { d with refcount := rc } hinv hget rfl rfl rfl

theorem inv_do_claim (s : InodeStoreInner) (handle : Option FileHandle) (ids : InodeIds)
    (r : Inode) (s' : InodeStoreInner) (hinv : StoreInv s)
    (h : InodeStore.do_claim_inode s handle ids = .ok (r, s')) : StoreInv s' := by
  unfold InodeStore.do_claim_inode at h
  cases hl : InodeStore.claim_lookup s handle ids with
  | none => rw [hl] at h; exact Except.noConfusion h
  | some d =>
    rw [hl] at h
    exact inv_new_with_data s d r s' hinv (claim_lookup_stored s handle ids d hinv hl) h

theorem contains_false_get_none (s : InodeStoreInner) (i : Inode)
    (h : s.contains i = false) : s.get i = none := by
  unfold InodeStoreInner.contains at h
  cases hg : s.get i with
  | none => rfl
  | some d => rw [hg] at h; simp at h

/-- One fresh operation preserves the invariant. -/
theorem inv_applyOp (s : InodeStoreInner) (op : StoreOp) (hinv : StoreInv s)
    (hfresh : freshFor s op = true) : StoreInv (applyOp s op) := by
  cases op with
  | claimInode handle ids =>
    simp only [applyOp]
    cases hc : InodeStore.claim_inode s handle ids with
    | error e => exact hinv
    | ok r =>
      cases r with
      | mk i s' => exact inv_do_claim s handle ids i s' hinv hc
  | getStrong i =>
    simp only [applyOp]
    cases hc : InodeStore.get_strong s i with
    | error e => exact hinv
    | ok r =>
      cases r with
      | mk i0 s' =>
        unfold InodeStore.get_strong at hc
        cases hg : s.get i with
        | none => rw [hg] at hc; exact Except.noConfusion hc
        | some d =>
          rw [hg] at hc
          have hdi : d.inode = i := (hinv.1 i d hg).1
          exact inv_new_with_data s d i0 s' hinv (by rw [hdi]; exact hg) hc
  | getOrInsert d =>
    simp only [applyOp]
    cases hc : InodeStore.get_or_insert s d with
    | error e => exact hinv
    | ok r =>
      cases r with
      | mk i0 s' =>
        unfold InodeStore.get_or_insert at hc
        cases hclaim : InodeStore.do_claim_inode s (handleOf d) d.ids with
        | ok rr =>
          rw [hclaim] at hc
          cases rr with
          | mk i1 s1 =>
            simp only [Except.ok.injEq, Prod.mk.injEq] at hc
            obtain ⟨hji, hjs⟩ := hc
            rw [hjs] at hclaim
            exact inv_do_claim s (handleOf d) d.ids i1 s' hinv hclaim
        | error e0 =>
          rw [hclaim] at hc
          by_cases hcont : s.contains d.inode
          · rw [if_pos hcont] at hc
            exact Except.noConfusion hc
          · rw [if_neg hcont] at hc
            cases hc
            have hnoal : noAlias s d = true := by
              simp only [freshFor] at hfresh
              rw [hclaim] at hfresh
              simp only [isOkE, Bool.false_or] at hfresh
              rcases Bool.or_eq_true_iff.mp hfresh with hcc | hna
              · exact absurd hcc hcont
              · exact hna
            have hnoal' : noAlias s { d with refcount := 1 } = true := by
              simpa [noAlias, handleOf] using hnoal
            have hget_none : s.get ({ d with refcount := 1 } : InodeData).inode = none := by
              exact contains_false_get_none s d.inode (by simpa using hcont)
            exact inv_insert_new s { d with refcount := 1 } hinv hget_none hnoal'
  | newInode d =>
    simp only [applyOp]
    cases hc : InodeStore.new_inode s d with
    | error e => exact hinv
    | ok s' =>
      unfold InodeStore.new_inode at hc
      by_cases hcont : s.contains d.inode
      · rw [if_pos hcont] at hc
        exact Except.noConfusion hc
      · rw [if_neg hcont] at hc
        cases hc
        have hnoal : noAlias s d = true := by
          simp only [freshFor] at hfresh
          rcases Bool.or_eq_true_iff.mp hfresh with hcc | hna
          · exact absurd hcc hcont
          · exact hna
        exact inv_insert_new s d hinv
          (contains_false_get_none s d.inode (by simpa using hcont)) hnoal
  | forgetOne i n => exact inv_forget_one s i n hinv
  | forgetMany l => exact inv_forget_many s l hinv
  | removeOp i => exact inv_remove s i hinv
  | clearOp => exact inv_clear s

theorem inv_applyOps (ops : List StoreOp) :
    ∀ s : InodeStoreInner, StoreInv s → opsFresh s ops = true → StoreInv (applyOps s ops) := by
  induction ops with
  | nil => intro s hinv _; exact hinv
  | cons op rest ih =>
    intro s hinv hfresh
    unfold opsFresh at hfresh
    obtain ⟨h1, h2⟩ := Bool.and_eq_true_iff.mp hfresh
    exact ih (applyOp s op) (inv_applyOp s op hinv h1) h2

/-! ## Claim theorems -/

/-- C1: once an entry's refcount is zero, no new strong reference can be
created against it: the increment loop refuses a zero refcount, and
`new_with_data`, `get_strong` and `claim_inode` (whenever its lookup chain
resolves to that entry) all fail with the "deleted" error instead of
incrementing — this is the sequential content of the CAS guard that also
decides the race against a concurrent `forget` dropping the count to zero. -/
theorem no_refcount_resurrection (s : InodeStoreInner) (d : InodeData)
    (hrc : d.refcount = 0) :
    increment_refcount_for d.refcount = none ∧
    InodeStore.new_with_data s d = .error .deleted ∧
    (∀ i, s.get i = some d → InodeStore.get_strong s i = .error .deleted) ∧
    (∀ handle ids, InodeStore.claim_lookup s handle ids = some d →
      InodeStore.claim_inode s handle ids = .error .deleted) := by
  have hinc : increment_refcount_for d.refcount = none := by
    simp [increment_refcount_for, hrc]
  have hnwd : InodeStore.new_with_data s d = .error .deleted := by
    unfold InodeStore.new_with_data
    rw [hinc]
  refine ⟨hinc, hnwd, ?_, ?_⟩
  · intro i hget
    unfold InodeStore.get_strong
    rw [hget]
    exact hnwd
  · intro handle ids hcl
    unfold InodeStore.claim_inode InodeStore.do_claim_inode
    rw [hcl]
    exact hnwd

/-- C1 witness: a concrete store holding a zero-refcount entry; claiming it
by ids and taking a strong reference by ID both fail with "deleted". -/
theorem no_refcount_resurrection_witness :
    (⟨2, FileOrHandle.file, 0, ⟨5, 6, 7⟩, 0, none⟩ : InodeData).refcount = 0 ∧
    InodeStore.get_strong
      ⟨[(2, ⟨2, FileOrHandle.file, 0, ⟨5, 6, 7⟩, 0, none⟩)], [(⟨5, 6, 7⟩, 2)], []⟩ 2 =
      .error .deleted ∧
    InodeStore.claim_inode
      ⟨[(2, ⟨2, FileOrHandle.file, 0, ⟨5, 6, 7⟩, 0, none⟩)], [(⟨5, 6, 7⟩, 2)], []⟩
      none ⟨5, 6, 7⟩ = .error .deleted := by
  refine ⟨rfl, ?_, ?_⟩
  · exact (no_refcount_resurrection
      ⟨[(2, ⟨2, FileOrHandle.file, 0, ⟨5, 6, 7⟩, 0, none⟩)], [(⟨5, 6, 7⟩, 2)], []⟩
      ⟨2, FileOrHandle.file, 0, ⟨5, 6, 7⟩, 0, none⟩ rfl).2.2.1 2 (by decide)
  · exact (no_refcount_resurrection
      ⟨[(2, ⟨2, FileOrHandle.file, 0, ⟨5, 6, 7⟩, 0, none⟩)], [(⟨5, 6, 7⟩, 2)], []⟩
      ⟨2, FileOrHandle.file, 0, ⟨5, 6, 7⟩, 0, none⟩ rfl).2.2.2 none ⟨5, 6, 7⟩ (by decide)

/-- C2 counterexample: the claim fails as stated.  Two inodes inserted with
the same identity tuple — exactly what deserializing two invalid inodes
produces, both with defaulted ids `(0,0,0)` — leave `by_ids[(0,0,0)]`
pointing at the second inode, so for the first inode `by_id[x].ids` is a key
of `by_ids` that does not map back to `x`. -/
theorem three_index_consistency_counterexample :
    ¬ Consistent (applyOps InodeStoreInner.empty
      [StoreOp.newInode ⟨2, FileOrHandle.invalid, 1, ⟨0, 0, 0⟩, 0, none⟩,
       StoreOp.newInode ⟨3, FileOrHandle.invalid, 1, ⟨0, 0, 0⟩, 0, none⟩]) := by
  intro h
  have h2 := h 2 ⟨2, FileOrHandle.invalid, 1, ⟨0, 0, 0⟩, 0, none⟩ (by decide)
  have hids := h2.2.1
  revert hids
  decide

/-- C2 (amended): after any sequence of store operations starting from the
empty store in which every insertion that actually takes place is fresh
(does not duplicate a live entry's identity tuple or file handle — the
source tolerates such duplicates explicitly, see the counterexample), the
three indices are consistent: every stored entry is keyed by its own inode
ID, `by_ids` maps its identity tuple back to it, and `by_handle` maps its
file handle (when it holds one) back to it. -/
theorem three_index_consistency (ops : List StoreOp)
    (hfresh : opsFresh InodeStoreInner.empty ops = true) :
    Consistent (applyOps InodeStoreInner.empty ops) :=
  (inv_applyOps ops InodeStoreInner.empty storeInv_empty hfresh).1

/-- C2 witness: a concrete fresh operation sequence (insert, claim, forget,
insert-by-handle, remove) ending in a consistent store. -/
theorem three_index_consistency_witness :
    opsFresh InodeStoreInner.empty
      [StoreOp.newInode ⟨2, FileOrHandle.file, 1, ⟨5, 6, 7⟩, 0, none⟩,
       StoreOp.getOrInsert ⟨3, FileOrHandle.handle ⟨1, 11⟩, 1, ⟨8, 9, 10⟩, 0, none⟩,
       StoreOp.claimInode none ⟨5, 6, 7⟩,
       StoreOp.forgetOne 2 2,
       StoreOp.removeOp 3] = true ∧
    Consistent (applyOps InodeStoreInner.empty
      [StoreOp.newInode ⟨2, FileOrHandle.file, 1, ⟨5, 6, 7⟩, 0, none⟩,
       StoreOp.getOrInsert ⟨3, FileOrHandle.handle ⟨1, 11⟩, 1, ⟨8, 9, 10⟩, 0, none⟩,
       StoreOp.claimInode none ⟨5, 6, 7⟩,
       StoreOp.forgetOne 2 2,
       StoreOp.removeOp 3]) :=
  ⟨by decide, three_index_consistency _ (by decide)⟩

/-- C3: `do_claim_inode` tries the file-handle index first whenever a handle
is given; only on a handle miss (or no handle) does it fall back to the
`(ino, dev, mnt_id)` index, and that fallback result is accepted only when
the matching entry holds an `O_PATH` descriptor (`FileOrHandle::File`) —
an entry holding only a file handle (or an invalid placeholder) is treated
as not found. -/
theorem claim_inode_handle_first (s : InodeStoreInner) (ids : InodeIds) :
    (∀ fh d, s.get_by_handle fh = some d →
      InodeStore.claim_inode s (some fh) ids = InodeStore.new_with_data s d) ∧
    (∀ hOpt : Option FileHandle, hOpt.bind (fun fh => s.get_by_handle fh) = none →
      ((∀ d, s.get_by_ids ids = some d → d.file_or_handle.isFile = true →
          InodeStore.claim_inode s hOpt ids = InodeStore.new_with_data s d) ∧
       (∀ d, s.get_by_ids ids = some d → d.file_or_handle.isFile = false →
          InodeStore.claim_inode s hOpt ids = .error .notFound) ∧
       (s.get_by_ids ids = none →
          InodeStore.claim_inode s hOpt ids = .error .notFound))) := by
  constructor
  · intro fh d hget
    unfold InodeStore.claim_inode InodeStore.do_claim_inode InodeStore.claim_lookup
    simp only [Option.bind, hget, Option.orElse]
  · intro hOpt hmiss
    refine ⟨?_, ?_, ?_⟩
    · intro d hget hfile
      unfold InodeStore.claim_inode InodeStore.do_claim_inode InodeStore.claim_lookup
      rw [hmiss]
      simp only [Option.orElse, hget, Option.filter, hfile, if_pos]
    · intro d hget hfile
      unfold InodeStore.claim_inode InodeStore.do_claim_inode InodeStore.claim_lookup
      rw [hmiss]
      simp [Option.orElse, hget, Option.filter, hfile]
    · intro hget
      unfold InodeStore.claim_inode InodeStore.do_claim_inode InodeStore.claim_lookup
      rw [hmiss]
      simp [Option.orElse, hget, Option.filter]

/-- C3 witness: with inode 4 stored under a file handle and inode 5 stored
with an `O_PATH` descriptor, a matching handle wins even when the ids point
elsewhere; a handle miss falls back to ids and succeeds on the descriptor
entry but is rejected on the handle-only entry. -/
theorem claim_inode_handle_first_witness :
    (InodeStore.claim_inode
      ⟨[(4, ⟨4, FileOrHandle.handle ⟨1, 11⟩, 1, ⟨5, 6, 7⟩, 0, none⟩),
        (5, ⟨5, FileOrHandle.file, 1, ⟨8, 9, 10⟩, 0, none⟩)],
       [(⟨5, 6, 7⟩, 4), (⟨8, 9, 10⟩, 5)], [(⟨1, 11⟩, 4)]⟩
      (some ⟨1, 11⟩) ⟨8, 9, 10⟩ =
      InodeStore.new_with_data
        ⟨[(4, ⟨4, FileOrHandle.handle ⟨1, 11⟩, 1, ⟨5, 6, 7⟩, 0, none⟩),
          (5, ⟨5, FileOrHandle.file, 1, ⟨8, 9, 10⟩, 0, none⟩)],
         [(⟨5, 6, 7⟩, 4), (⟨8, 9, 10⟩, 5)], [(⟨1, 11⟩, 4)]⟩
        ⟨4, FileOrHandle.handle ⟨1, 11⟩, 1, ⟨5, 6, 7⟩, 0, none⟩) ∧
    (InodeStore.claim_inode
      ⟨[(4, ⟨4, FileOrHandle.handle ⟨1, 11⟩, 1, ⟨5, 6, 7⟩, 0, none⟩),
        (5, ⟨5, FileOrHandle.file, 1, ⟨8, 9, 10⟩, 0, none⟩)],
       [(⟨5, 6, 7⟩, 4), (⟨8, 9, 10⟩, 5)], [(⟨1, 11⟩, 4)]⟩
      (some ⟨9, 99⟩) ⟨5, 6, 7⟩ = Except.error FsError.notFound) := by
  constructor
  · exact (claim_inode_handle_first _ ⟨8, 9, 10⟩).1 ⟨1, 11⟩ _ (by decide)
  · exact ((claim_inode_handle_first _ ⟨5, 6, 7⟩).2 (some ⟨9, 99⟩) (by decide)).2.1
      ⟨4, FileOrHandle.handle ⟨1, 11⟩, 1, ⟨5, 6, 7⟩, 0, none⟩ (by decide) (by decide)

/-- C4: `forget_one(id, n)` (and each element of `forget_many`, i.e.
`batch_forget`) decrements the entry's refcount by `n` with saturating
subtraction, removes the entry exactly when the resulting count is zero (the
decision and the removal are one step of the same mutably-locked store
update), and is a no-op on an id that is not in the store. -/
theorem forget_semantics (s : InodeStoreInner) (i : Inode) (n : Nat) :
    (s.get i = none → s.forget_one i n = s) ∧
    (∀ d, s.get i = some d → d.refcount ≤ n → (s.forget_one i n).get i = none) ∧
    (∀ d, s.get i = some d → n < d.refcount →
      (s.forget_one i n).get i = some { d with refcount := d.refcount - n }) ∧
    (∀ l, InodeStore.forget_many s l =
      l.foldl (fun st p => st.forget_one p.1 p.2) s) := by
  refine ⟨?_, ?_, ?_, fun l => rfl⟩
  · intro hget
    exact forgetOneFuel_succ_none s.data.length s i n hget
  · intro d hget hle
    unfold InodeStoreInner.forget_one
    rw [forgetOneFuel_succ_some s.data.length s i n d hget]
    rw [if_pos (Nat.sub_eq_zero_of_le hle)]
    set s' : InodeStoreInner :=
      { s with data := ainsert s.data i { d with refcount := d.refcount - n } } with hs'
    have hget' : s'.get i = some { d with refcount := d.refcount - n } := by
      simp [hs', InodeStoreInner.get, alookup_ainsert]
    rw [removeBase_eq s' i { d with refcount := d.refcount - n } hget']
    have hnone :
        InodeStoreInner.get
          { data := aerase s'.data i,
            by_ids := aerase s'.by_ids ({ d with refcount := d.refcount - n } : InodeData).ids,
            by_handle :=
              match ({ d with refcount := d.refcount - n } : InodeData).file_or_handle with
              | FileOrHandle.handle h => aerase s'.by_handle h
              | _ => s'.by_handle } i = none := by
      simp [InodeStoreInner.get, alookup_aerase]
    cases hmi : ({ d with refcount := d.refcount - n } : InodeData).migration_info with
    | none =>
      simp only [hmi]
      exact hnone
    | some mi =>
      cases hloc : mi.location with
      | rootNode =>
        simp only [hmi, hloc]
        exact hnone
      | path parent fn =>
        simp only [hmi, hloc]
        exact get_none_forgetOneFuel _ _ parent 1 i hnone
  · intro d hget hlt
    unfold InodeStoreInner.forget_one
    rw [forgetOneFuel_succ_some s.data.length s i n d hget]
    rw [if_neg (by omega)]
    simp [InodeStoreInner.get, alookup_ainsert]

/-- C4 witness: forgetting a missing id is a no-op; a refcount-2 entry
survives `forget(·,1)` with refcount 1 and is removed by `forget(·,5)`
(saturating), all on a concrete store. -/
theorem forget_semantics_witness :
    (InodeStoreInner.forget_one
        ⟨[(5, ⟨5, FileOrHandle.file, 2, ⟨5, 6, 7⟩, 0, none⟩)], [(⟨5, 6, 7⟩, 5)], []⟩ 9 1 =
      ⟨[(5, ⟨5, FileOrHandle.file, 2, ⟨5, 6, 7⟩, 0, none⟩)], [(⟨5, 6, 7⟩, 5)], []⟩) ∧
    ((InodeStoreInner.forget_one
        ⟨[(5, ⟨5, FileOrHandle.file, 2, ⟨5, 6, 7⟩, 0, none⟩)], [(⟨5, 6, 7⟩, 5)], []⟩ 5 1).get 5 =
      some ⟨5, FileOrHandle.file, 1, ⟨5, 6, 7⟩, 0, none⟩) ∧
    ((InodeStoreInner.forget_one
        ⟨[(5, ⟨5, FileOrHandle.file, 2, ⟨5, 6, 7⟩, 0, none⟩)], [(⟨5, 6, 7⟩, 5)], []⟩ 5 5).get 5 =
      none) := by
  refine ⟨?_, ?_, ?_⟩
  · exact (forget_semantics _ 9 1).1 (by decide)
  · exact (forget_semantics _ 5 1).2.2.1 ⟨5, FileOrHandle.file, 2, ⟨5, 6, 7⟩, 0, none⟩
      (by decide) (by decide)
  · exact (forget_semantics _ 5 5).2.1 ⟨5, FileOrHandle.file, 2, ⟨5, 6, 7⟩, 0, none⟩
      (by decide) (by decide)

/-- C6: applying the negotiated-options record aborts when the source had
writeback, announce-submounts or posix-acl enabled but the destination
configuration disables it; on success every negotiated flag ends up exactly
as the source sent it — so a source-disabled option stays disabled even when
the destination configuration enables it.  The supplementary-group extension
has no configuration switch in `Config` (INIT enables it purely from the
guest capability), so the only statable conflict conditions are the three
above; its value, too, is copied through unconditionally. -/
theorem negotiated_opts_apply_spec (o : NegotiatedOpts) (cfg : Config) (fs : FsState) :
    (cfg.writeback = false → o.writeback = true →
      NegotiatedOpts.apply o cfg fs = .error .writebackConflict) ∧
    (cfg.announce_submounts = false → o.announce_submounts = true →
      isOkE (NegotiatedOpts.apply o cfg fs) = false) ∧
    (cfg.posix_acl = false → o.posix_acl = true →
      isOkE (NegotiatedOpts.apply o cfg fs) = false) ∧
    (∀ fs', NegotiatedOpts.apply o cfg fs = .ok fs' →
      fs'.writeback = o.writeback ∧ fs'.announce_submounts = o.announce_submounts ∧
      fs'.posix_acl = o.posix_acl ∧ fs'.sup_group_extension = o.sup_group_extension) := by
  refine ⟨?_, ?_, ?_, ?_⟩
  · intro hc ho
    simp [NegotiatedOpts.apply, hc, ho]
  · intro hc ho
    by_cases h1 : cfg.writeback = false ∧ o.writeback = true
    · simp [NegotiatedOpts.apply, h1, isOkE]
    · simp [NegotiatedOpts.apply, h1, hc, ho, isOkE]
  · intro hc ho
    by_cases h1 : cfg.writeback = false ∧ o.writeback = true
    · simp [NegotiatedOpts.apply, h1, isOkE]
    · by_cases h2 : cfg.announce_submounts = false ∧ o.announce_submounts = true
      · simp [NegotiatedOpts.apply, h1, h2, isOkE]
      · simp [NegotiatedOpts.apply, h1, h2, hc, ho, isOkE]
  · intro fs' h
    unfold NegotiatedOpts.apply at h
    split_ifs at h
    cases h
    simp

/-- C6 witness: a concrete conflict (source writeback on, destination
writeback off) aborts; a concrete success run carries all four source values
through — sup_group_extension comes on although every destination
configuration switch is off, and writeback ends up off although the
destination state had it on. -/
theorem negotiated_opts_apply_spec_witness :
    (NegotiatedOpts.apply ⟨true, false, false, false⟩
      ⟨false, false, false, false, false, MigrationOnError.abort, false⟩
      ⟨InodeStoreInner.empty, [], 2, 1, true, false, false, false⟩ =
      .error .writebackConflict) ∧
    (⟨InodeStoreInner.empty, [], 2, 1, false, false, false, true⟩ : FsState).writeback =
      (⟨false, false, false, true⟩ : NegotiatedOpts).writeback ∧
    (⟨InodeStoreInner.empty, [], 2, 1, false, false, false, true⟩ : FsState).sup_group_extension =
      (⟨false, false, false, true⟩ : NegotiatedOpts).sup_group_extension := by
  refine ⟨?_, ?_, ?_⟩
  · exact (negotiated_opts_apply_spec ⟨true, false, false, false⟩
      ⟨false, false, false, false, false, MigrationOnError.abort, false⟩
      ⟨InodeStoreInner.empty, [], 2, 1, true, false, false, false⟩).1 rfl rfl
  · exact ((negotiated_opts_apply_spec ⟨false, false, false, true⟩
      ⟨false, false, false, false, false, MigrationOnError.abort, false⟩
      ⟨InodeStoreInner.empty, [], 2, 1, true, false, false, false⟩).2.2.2
      ⟨InodeStoreInner.empty, [], 2, 1, false, false, false, true⟩ rfl).1
  · exact ((negotiated_opts_apply_spec ⟨false, false, false, true⟩
      ⟨false, false, false, false, false, MigrationOnError.abort, false⟩
      ⟨InodeStoreInner.empty, [], 2, 1, true, false, false, false⟩).2.2.2
      ⟨InodeStoreInner.empty, [], 2, 1, false, false, false, true⟩ rfl).2.2.2

/-- C5 counterexample: the claim fails as stated.  Under the
`migration_on_error = Abort` policy a serialized `Invalid` inode is not
"always accepted as an invalid placeholder": its deserialization — and with
it the whole `apply` — fails with the propagated lost-inode error. -/
theorem deserialize_invalid_abort_counterexample :
    SerInode.deserialize_with_fs ⟨2, 1, SerInodeLocation.invalid, none⟩
      ⟨false, false, false, false, false, MigrationOnError.abort, false⟩
      ⟨none, fun _ _ => none, fun _ => none⟩
      ⟨InodeStoreInner.empty, [], 2, 1, false, false, false, false⟩ =
      .error .sourceLostInode ∧
    PassthroughFsV1.apply
      ⟨[⟨2, 1, SerInodeLocation.invalid, none⟩], 3, [], 1, ⟨false, false, false, false⟩⟩
      ⟨false, false, false, false, false, MigrationOnError.abort, false⟩
      ⟨none, fun _ _ => none, fun _ => none⟩
      ⟨InodeStoreInner.empty, [], 2, 1, false, false, false, false⟩ =
      .error .sourceLostInode :=
  ⟨rfl, rfl⟩

/-- C5 (amended): the deserialization loop defers a `Path` inode until its
parent has been deserialized and a `FullPath` inode until the root is
present; an `Invalid` inode is accepted as an invalid placeholder when the
migration-on-error policy is guest-error, while under the abort policy it
fails the whole deserialization (see the counterexample); a `RootNode`
location is accepted only for the reserved `ROOT_ID`; and whenever a pass
over a non-empty pending list processes no entry, deserialization fails with
the unresolved-references error. -/
theorem deserialization_deferral (cfg : Config) (host : HostModel) (fs : FsState)
    (si : SerInode) :
    (∀ parent fn, si.location = SerInodeLocation.path parent fn → si.id ≠ ROOT_ID →
      fs.inodes.get parent = none →
      si.deserialize_with_fs cfg host fs = .ok (false, fs)) ∧
    (∀ fn, si.location = SerInodeLocation.fullPath fn → si.id ≠ ROOT_ID →
      fs.inodes.get ROOT_ID = none →
      si.deserialize_with_fs cfg host fs = .ok (false, fs)) ∧
    (si.location = SerInodeLocation.invalid →
      cfg.migration_on_error = MigrationOnError.guestError →
      fs.inodes.contains si.id = false →
      si.deserialize_with_fs cfg host fs =
        .ok (true, { fs with inodes := fs.inodes.insert_new ⟨si.id, FileOrHandle.invalid, si.refcount, ⟨0, 0, 0⟩, 0, none⟩ })) ∧
    (si.location = SerInodeLocation.invalid →
      cfg.migration_on_error = MigrationOnError.abort →
      si.deserialize_with_fs cfg host fs = .error .sourceLostInode) ∧
    (si.location = SerInodeLocation.rootNode → si.id ≠ ROOT_ID →
      si.deserialize_with_fs cfg host fs = .error .nonRootAsRoot) ∧
    (∀ pending rem fs', pending ≠ [] →
      applyPass cfg host pending fs = .ok (rem, false, fs') →
      ∀ fuel, applyLoop cfg host (fuel + 1) pending fs = .error .unresolvedReferences) := by
  refine ⟨?_, ?_, ?_, ?_, ?_, ?_⟩
  · intro parent fn hloc hid hget
    simp [SerInode.deserialize_with_fs, hloc, hid, hget]
  · intro fn hloc hid hroot
    simp [SerInode.deserialize_with_fs, hloc, hid, InodeStore.get_strong, hroot]
  · intro hloc hpol hcont
    simp [SerInode.deserialize_with_fs, hloc, SerInode.deserialize_invalid_inode, hpol,
      InodeStore.new_inode, hcont]
  · intro hloc hpol
    simp [SerInode.deserialize_with_fs, hloc, SerInode.deserialize_invalid_inode, hpol]
  · intro hloc hid
    simp [SerInode.deserialize_with_fs, hloc, hid]
  · intro pending rem fs' hne hpass fuel
    cases pending with
    | nil => exact absurd rfl hne
    | cons a rest =>
      rw [applyLoop.eq_def]
      dsimp only
      rw [hpass]
      rfl

/-- C5 witness: on a concrete input, a `Path` inode whose parent is absent
is deferred, and an `Invalid` inode under the guest-error policy becomes an
invalid placeholder in the store. -/
theorem deserialization_deferral_witness :
    SerInode.deserialize_with_fs ⟨4, 1, SerInodeLocation.path 7 ("x"), none⟩
      ⟨false, false, false, false, false, MigrationOnError.guestError, false⟩
      ⟨none, fun _ _ => none, fun _ => none⟩
      ⟨InodeStoreInner.empty, [], 2, 1, false, false, false, false⟩ =
      .ok (false, ⟨InodeStoreInner.empty, [], 2, 1, false, false, false, false⟩) ∧
    SerInode.deserialize_with_fs ⟨4, 1, SerInodeLocation.invalid, none⟩
      ⟨false, false, false, false, false, MigrationOnError.guestError, false⟩
      ⟨none, fun _ _ => none, fun _ => none⟩
      ⟨InodeStoreInner.empty, [], 2, 1, false, false, false, false⟩ =
      .ok (true, ⟨InodeStoreInner.empty.insert_new
        ⟨4, FileOrHandle.invalid, 1, ⟨0, 0, 0⟩, 0, none⟩, [], 2, 1, false, false, false,
        false⟩) := by
  constructor
  · exact (deserialization_deferral
      ⟨false, false, false, false, false, MigrationOnError.guestError, false⟩
      ⟨none, fun _ _ => none, fun _ => none⟩
      ⟨InodeStoreInner.empty, [], 2, 1, false, false, false, false⟩
      ⟨4, 1, SerInodeLocation.path 7 ("x"), none⟩).1 7 ("x") rfl (by decide) rfl
  · exact (deserialization_deferral
      ⟨false, false, false, false, false, MigrationOnError.guestError, false⟩
      ⟨none, fun _ _ => none, fun _ => none⟩
      ⟨InodeStoreInner.empty, [], 2, 1, false, false, false, false⟩
      ⟨4, 1, SerInodeLocation.invalid, none⟩).2.2.1 rfl rfl rfl

/-! ## Flag-bit lemmas -/

theorem and_pow_ne_zero (x k : Nat) : x &&& 2 ^ k ≠ 0 ↔ x.testBit k = true := by
  rw [Nat.and_two_pow]
  cases h : x.testBit k <;> simp [h]

theorem adjust_testBit_10 (wb adio : Bool) (F : Nat) (hF : F.testBit 10 = false) :
    (open_inode_flag_adjust wb adio F).testBit 10 = false := by
  simp only [open_inode_flag_adjust]
  split_ifs <;>
    simp +decide [Nat.testBit_land, Nat.testBit_lor, hF]

theorem adjust_testBit_14 (wb adio : Bool) (F : Nat) :
    (open_inode_flag_adjust wb adio F).testBit 14 = (F.testBit 14 && adio) := by
  have e1 : (cmpl32 O_ACCMODE).testBit 14 = true := by decide
  have e2 : (O_RDWR : Nat).testBit 14 = false := by decide
  have e3 : (cmpl32 O_APPEND).testBit 14 = true := by decide
  have e4 : (cmpl32 O_DIRECT).testBit 14 = false := by decide
  simp only [open_inode_flag_adjust]
  set a1 := if wb = true ∧ F &&& O_ACCMODE = O_WRONLY then (F &&& cmpl32 O_ACCMODE) ||| O_RDWR
    else F with ha1def
  set a2 := if wb = true ∧ a1 &&& O_APPEND ≠ 0 then a1 &&& cmpl32 O_APPEND else a1 with ha2def
  have hb1 : a1.testBit 14 = F.testBit 14 := by
    rw [ha1def]
    split_ifs with h
    · simp [Nat.testBit_lor, Nat.testBit_land, e1, e2]
    · rfl
  have hb2 : a2.testBit 14 = F.testBit 14 := by
    rw [ha2def]
    split_ifs with h
    · simp [Nat.testBit_land, e3, hb1]
    · exact hb1
  by_cases h3 : adio = false ∧ a2 &&& O_DIRECT ≠ 0
  · rw [if_pos h3]
    simp [Nat.testBit_land, e4, h3.1]
  · rw [if_neg h3]
    cases adio with
    | true => simp [hb2]
    | false =>
      have h0 : a2 &&& O_DIRECT = 0 := by
        by_contra hne
        exact h3 ⟨rfl, hne⟩
      have hbit : a2.testBit 14 = false := by
        cases hb : a2.testBit 14 with
        | false => rfl
        | true =>
          rw [show O_DIRECT = 2 ^ 14 from by decide] at h0
          exact absurd h0 ((and_pow_ne_zero a2 14).mpr hb)
      rw [hbit] at hb2
      simp [hbit, ← hb2]

theorem adjust_testBit_18 (wb adio : Bool) (F : Nat) :
    (open_inode_flag_adjust wb adio F).testBit 18 = F.testBit 18 := by
  have e1 : (cmpl32 O_ACCMODE).testBit 18 = true := by decide
  have e2 : (O_RDWR : Nat).testBit 18 = false := by decide
  have e3 : (cmpl32 O_APPEND).testBit 18 = true := by decide
  have e4 : (cmpl32 O_DIRECT).testBit 18 = true := by decide
  simp only [open_inode_flag_adjust]
  set a1 := if wb = true ∧ F &&& O_ACCMODE = O_WRONLY then (F &&& cmpl32 O_ACCMODE) ||| O_RDWR
    else F with ha1def
  set a2 := if wb = true ∧ a1 &&& O_APPEND ≠ 0 then a1 &&& cmpl32 O_APPEND else a1 with ha2def
  have hb1 : a1.testBit 18 = F.testBit 18 := by
    rw [ha1def]
    split_ifs with h
    · simp [Nat.testBit_lor, Nat.testBit_land, e1, e2]
    · rfl
  have hb2 : a2.testBit 18 = F.testBit 18 := by
    rw [ha2def]
    split_ifs with h
    · simp [Nat.testBit_land, e3, hb1]
    · exact hb1
  split_ifs with h3
  · simp [Nat.testBit_land, e4, hb2]
  · exact hb2

theorem sanitize_testBit_10 (cn : Bool) (F : Nat) :
    (do_open_sanitized_flags cn F).testBit 10 = false := by
  have e1 : (cmpl32 O_APPEND).testBit 10 = false := by decide
  have e2 : (cmpl32 O_NOATIME).testBit 10 = true := by decide
  simp only [do_open_sanitized_flags]
  split_ifs <;> simp [Nat.testBit_land, e1, e2]

theorem sanitize_testBit_14 (cn : Bool) (F : Nat) :
    (do_open_sanitized_flags cn F).testBit 14 = F.testBit 14 := by
  have e1 : (cmpl32 O_APPEND).testBit 14 = true := by decide
  have e2 : (cmpl32 O_NOATIME).testBit 14 = true := by decide
  simp only [do_open_sanitized_flags]
  split_ifs <;> simp [Nat.testBit_land, e1, e2]

theorem sanitize_testBit_18 (cn : Bool) (F : Nat) :
    (do_open_sanitized_flags cn F).testBit 18 = (F.testBit 18 && !cn) := by
  have e1 : (cmpl32 O_APPEND).testBit 18 = true := by decide
  have e2 : (cmpl32 O_NOATIME).testBit 18 = false := by decide
  simp only [do_open_sanitized_flags]
  split_ifs with h <;> simp [Nat.testBit_land, e1, e2, h]

theorem testBit_cmpl32_lt (m j : Nat) (hj : j < 32) :
    (cmpl32 m).testBit j = !(m.testBit j) := by
  rw [cmpl32, Nat.testBit_xor]
  have hmax : Nat.testBit 4294967295 j = true := by
    interval_cases j <;> decide
  rw [hmax]
  cases m.testBit j <;> rfl

theorem testBit_cmpl32_ge (m j : Nat) (hm : m < 2 ^ 32) (hj : 32 ≤ j) :
    (cmpl32 m).testBit j = false := by
  have hlt : cmpl32 m < 2 ^ 32 := by
    rw [cmpl32]
    exact Nat.xor_lt_two_pow (by norm_num) hm
  exact Nat.testBit_eq_false_of_lt
    (lt_of_lt_of_le hlt (Nat.pow_le_pow_right (by norm_num) hj))

/-- Clearing a sub-2^32 mask then re-or-ing the masked part recovers a
32-bit word. -/
theorem and_cmpl32_or_masked (x m : Nat) (hx : x < 2 ^ 32) (hm : m < 2 ^ 32) :
    (x &&& cmpl32 m) ||| (x &&& m) = x := by
  apply Nat.eq_of_testBit_eq
  intro j
  rw [Nat.testBit_lor, Nat.testBit_land, Nat.testBit_land]
  by_cases hj : j < 32
  · rw [testBit_cmpl32_lt m j hj]
    cases m.testBit j <;> cases x.testBit j <;> rfl
  · have hxj : x.testBit j = false :=
      Nat.testBit_eq_false_of_lt
        (lt_of_lt_of_le hx (Nat.pow_le_pow_right (by norm_num) (le_of_not_lt hj)))
    simp [hxj]

theorem and_cmpl32_and_masked (x m : Nat) (hm : m < 2 ^ 32) :
    (x &&& cmpl32 m) &&& m = 0 := by
  apply Nat.eq_of_testBit_eq
  intro j
  rw [Nat.testBit_land, Nat.testBit_land, Nat.zero_testBit]
  by_cases hj : j < 32
  · rw [testBit_cmpl32_lt m j hj]
    cases m.testBit j <;> cases x.testBit j <;> rfl
  · rw [testBit_cmpl32_ge m j hm (le_of_not_lt hj)]
    cases x.testBit j <;> rfl

/-- C7: writeback promotion and its gap.  At the failing input — writeback
negotiated, a regular-file inode, a guest handle with access mode
`O_WRONLY` — the server's own open path (`open_inode`) gives the host
access mode `O_RDWR`, but reopening the same handle during migration
deserialization calls `InodeData::open_file` directly with the recorded
flags, so the host receives access mode `O_WRONLY`, contradicting the
claimed promotion on that path. -/
theorem writeback_promotion_divergence :
    PassthroughFs.open_inode true true
      ⟨2, FileOrHandle.file, 1, ⟨10, 20, 30⟩, 33188, none⟩ O_WRONLY = .ok 524290 ∧
    524290 &&& O_ACCMODE = O_RDWR ∧
    SerHandle.deserialize_with_fs ⟨1, 2, O_WRONLY⟩
      ⟨true, false, false, false, false, MigrationOnError.guestError, false⟩
      ⟨⟨[(2, ⟨2, FileOrHandle.file, 1, ⟨10, 20, 30⟩, 33188, none⟩)], [(⟨10, 20, 30⟩, 2)], []⟩,
        [], 3, 2, true, false, false, false⟩ =
      .ok ⟨⟨[(2, ⟨2, FileOrHandle.file, 1, ⟨10, 20, 30⟩, 33188, none⟩)], [(⟨10, 20, 30⟩, 2)], []⟩,
        [(1, ⟨2, HandleDataFile.fileAt 1, HandleMigrationInfo.openInode 1⟩)], 3, 2, true, false,
        false, false⟩ ∧
    1 &&& O_ACCMODE = O_WRONLY ∧ O_WRONLY ≠ O_RDWR :=
  ⟨rfl, rfl, rfl, rfl, by decide⟩

/-- C8 counterexample: the claim fails as stated for `create`.  On the
direct creation path the flags given to the host are computed without
consulting `allow_direct_io` or `clean_noatime` at all, so with
`O_DIRECT` (resp. `O_NOATIME`) among the guest flags the host receives
`O_DIRECT` even when direct I/O is disallowed, and `O_NOATIME` even when
`clean_noatime` is configured. -/
theorem open_flags_sanitation_counterexample :
    create_host_flags O_DIRECT &&& O_DIRECT = O_DIRECT ∧
    create_host_flags O_NOATIME &&& O_NOATIME = O_NOATIME := by decide

/-- C8 (amended): on the `open`/`opendir` path (`do_open` → `open_inode`)
the host flag word never contains `O_APPEND`, contains `O_DIRECT` iff the
guest passed it and direct I/O is allowed, and contains `O_NOATIME` iff the
guest passed it and `clean_noatime` is off; `create`, by contrast, strips
only `O_APPEND` — its direct creation path passes `O_DIRECT` and
`O_NOATIME` through to the host unchanged (see the counterexample). -/
theorem open_flags_sanitation (wb adio cn : Bool) (d : InodeData) (F hf : Nat)
    (h : do_open_host_flags wb adio cn d F = .ok hf) :
    (hf.testBit 10 = false ∧
     hf.testBit 14 = (F.testBit 14 && adio) ∧
     hf.testBit 18 = (F.testBit 18 && !cn)) ∧
    ((create_host_flags F).testBit 10 = false ∧
     (create_host_flags F).testBit 14 = F.testBit 14 ∧
     (create_host_flags F).testBit 18 = F.testBit 18) := by
  have c10 : (O_CLOEXEC : Nat).testBit 10 = false := by decide
  have c14 : (O_CLOEXEC : Nat).testBit 14 = false := by decide
  have c18 : (O_CLOEXEC : Nat).testBit 18 = false := by decide
  have n10 : (cmpl32 O_NOFOLLOW).testBit 10 = true := by decide
  have n14 : (cmpl32 O_NOFOLLOW).testBit 14 = true := by decide
  have n18 : (cmpl32 O_NOFOLLOW).testBit 18 = true := by decide
  constructor
  · have hmain : ∀ j : Nat,
        ((open_inode_flag_adjust wb adio (do_open_sanitized_flags cn F)) ||| O_CLOEXEC).testBit 10
          = false ∧
        ((open_inode_flag_adjust wb adio (do_open_sanitized_flags cn F)) ||| O_CLOEXEC).testBit 14
          = (F.testBit 14 && adio) ∧
        ((open_inode_flag_adjust wb adio (do_open_sanitized_flags cn F)) ||| O_CLOEXEC).testBit 18
          = (F.testBit 18 && !cn) := by
      intro _
      refine ⟨?_, ?_, ?_⟩
      · rw [Nat.testBit_lor, c10, Bool.or_false]
        exact adjust_testBit_10 wb adio _ (sanitize_testBit_10 cn F)
      · rw [Nat.testBit_lor, c14, Bool.or_false, adjust_testBit_14, sanitize_testBit_14]
      · rw [Nat.testBit_lor, c18, Bool.or_false, adjust_testBit_18, sanitize_testBit_18]
    have hm := hmain 0
    unfold do_open_host_flags PassthroughFs.open_inode InodeData.open_file_host_flags at h
    cases hd : d.file_or_handle with
    | invalid =>
      rw [hd] at h
      exact Except.noConfusion h
    | file =>
      rw [hd] at h
      split_ifs at h with hs
      · cases h
        refine ⟨?_, ?_, ?_⟩
        · rw [Nat.testBit_land, n10, Bool.and_true]
          exact hm.1
        · rw [Nat.testBit_land, n14, Bool.and_true]
          exact hm.2.1
        · rw [Nat.testBit_land, n18, Bool.and_true]
          exact hm.2.2
    | handle fh =>
      rw [hd] at h
      split_ifs at h with hs
      cases h
      exact hm
  · have a10 : (cmpl32 O_APPEND).testBit 10 = false := by decide
    have a14 : (cmpl32 O_APPEND).testBit 14 = true := by decide
    have a18 : (cmpl32 O_APPEND).testBit 18 = true := by decide
    have k1 : (O_CREAT : Nat).testBit 10 = false := by decide
    have k2 : (O_CREAT : Nat).testBit 14 = false := by decide
    have k3 : (O_CREAT : Nat).testBit 18 = false := by decide
    have k4 : (O_EXCL : Nat).testBit 10 = false := by decide
    have k5 : (O_EXCL : Nat).testBit 14 = false := by decide
    have k6 : (O_EXCL : Nat).testBit 18 = false := by decide
    have k7 : (O_NOFOLLOW : Nat).testBit 10 = false := by decide
    have k8 : (O_NOFOLLOW : Nat).testBit 14 = false := by decide
    have k9 : (O_NOFOLLOW : Nat).testBit 18 = false := by decide
    refine ⟨?_, ?_, ?_⟩ <;>
      simp [create_host_flags, Nat.testBit_lor, Nat.testBit_land, a10, a14, a18,
        k1, k2, k3, k4, k5, k6, k7, k8, k9, c10, c14, c18]

/-- C8 witness: a concrete open with `O_DIRECT | O_NOATIME | O_APPEND`
under writeback off, direct I/O disallowed and `clean_noatime` on; the host
word is `O_CLOEXEC` only, and the three bit facts follow from the theorem. -/
theorem open_flags_sanitation_witness :
    do_open_host_flags false false true ⟨2, FileOrHandle.file, 1, ⟨10, 20, 30⟩, 33188, none⟩
      279552 = .ok 524288 ∧
    Nat.testBit 524288 10 = false ∧
    Nat.testBit 524288 14 = (Nat.testBit 279552 14 && false) ∧
    Nat.testBit 524288 18 = (Nat.testBit 279552 18 && !true) := by
  have h := (open_flags_sanitation false false true
    ⟨2, FileOrHandle.file, 1, ⟨10, 20, 30⟩, 33188, none⟩ 279552 524288 rfl).1
  exact ⟨rfl, h.1, h.2.1, h.2.2⟩

/-- C9 counterexample: the claim fails as stated for a handle opened via
`do_open` with `O_APPEND` among the guest flags: the recorded migration
flags are the sanitized word (`O_APPEND` already cleared), not the guest
flags with only `O_CREAT | O_EXCL | O_TRUNC` cleared. -/
theorem handle_migration_flags_counterexample :
    do_open_recorded_migration_info false O_APPEND ≠
      HandleMigrationInfo.openInode
        (O_APPEND &&& cmpl32 (O_CREAT ||| O_EXCL ||| O_TRUNC)) := by decide

/-- C9 (amended): a handle's recorded `HandleMigrationInfo` flags never
contain `O_CREAT`, `O_EXCL` or `O_TRUNC`.  On the `create` path they are
exactly the guest flags minus those three bits; on the `open`/`opendir`
path (`do_open`) they are the sanitized flags minus those three bits, which
additionally lack `O_APPEND` (and `O_NOATIME` when `clean_noatime` is
configured) — see the counterexample for the difference from the unamended
claim. -/
theorem handle_migration_flags_recorded (cn : Bool) (F : Nat) (hF : F < 2 ^ 32) :
    (∀ rf, do_open_recorded_migration_info cn F = HandleMigrationInfo.openInode rf →
      rf &&& (O_CREAT ||| O_EXCL ||| O_TRUNC) = 0 ∧
      rf.testBit 10 = false ∧ (cn = true → rf.testBit 18 = false) ∧
      rf = do_open_sanitized_flags cn F &&& cmpl32 (O_CREAT ||| O_EXCL ||| O_TRUNC)) ∧
    (∀ rf, create_recorded_migration_info F = HandleMigrationInfo.openInode rf →
      rf &&& (O_CREAT ||| O_EXCL ||| O_TRUNC) = 0 ∧
      rf ||| (F &&& (O_CREAT ||| O_EXCL ||| O_TRUNC)) = F) := by
  have hmask : (O_CREAT ||| O_EXCL ||| O_TRUNC : Nat) < 2 ^ 32 := by decide
  have hcet10 : (cmpl32 (O_CREAT ||| O_EXCL ||| O_TRUNC)).testBit 10 = true := by decide
  have hcet18 : (cmpl32 (O_CREAT ||| O_EXCL ||| O_TRUNC)).testBit 18 = true := by decide
  constructor
  · intro rf h
    simp only [do_open_recorded_migration_info, HandleMigrationInfo.new,
      HandleMigrationInfo.openInode.injEq] at h
    subst h
    refine ⟨and_cmpl32_and_masked _ _ hmask, ?_, ?_, rfl⟩
    · rw [Nat.testBit_land, hcet10, Bool.and_true]
      exact sanitize_testBit_10 cn F
    · intro hcn
      rw [Nat.testBit_land, hcet18, Bool.and_true, sanitize_testBit_18, hcn]
      simp
  · intro rf h
    simp only [create_recorded_migration_info, HandleMigrationInfo.new,
      HandleMigrationInfo.openInode.injEq] at h
    subst h
    exact ⟨and_cmpl32_and_masked _ _ hmask, and_cmpl32_or_masked F _ hF hmask⟩

/-- C9 witness: a handle opened with `O_RDWR | O_CREAT | O_EXCL | O_TRUNC`
is recorded, on both paths, with flags `O_RDWR` only. -/
theorem handle_migration_flags_recorded_witness :
    do_open_recorded_migration_info false (O_RDWR ||| O_CREAT ||| O_EXCL ||| O_TRUNC) =
      HandleMigrationInfo.openInode O_RDWR ∧
    create_recorded_migration_info (O_RDWR ||| O_CREAT ||| O_EXCL ||| O_TRUNC) =
      HandleMigrationInfo.openInode O_RDWR ∧
    O_RDWR &&& (O_CREAT ||| O_EXCL ||| O_TRUNC) = 0 := by
  refine ⟨by decide, by decide, ?_⟩
  exact ((handle_migration_flags_recorded false (O_RDWR ||| O_CREAT ||| O_EXCL ||| O_TRUNC)
    (by decide)).2 O_RDWR (by decide)).1

/-! ## Root-survival machinery (for the root refcount claim) -/

/-- An entry whose migration info holds no strong parent reference, so
forgetting or removing it cascades into no further drops. -/
def parentFree (d : InodeData) : Bool :=
  match d.migration_info with
  | some mi =>
    match mi.location with
    | .path _ _ => false
    | .rootNode => true
  | none => true

/-- Store operations on inodes other than the root that also introduce no
strong parent references (lookups and balanced forgets on other inodes are
of this shape until migration preparation runs). -/
def rootSafeOp : StoreOp → Bool
  | .claimInode _ _ => true
  | .getStrong _ => true
  | .getOrInsert d => decide (d.inode ≠ ROOT_ID) && parentFree d
  | .newInode d => decide (d.inode ≠ ROOT_ID) && parentFree d
  | .forgetOne i _ => decide (i ≠ ROOT_ID)
  | .forgetMany l => l.all fun p => decide (p.1 ≠ ROOT_ID)
  | .removeOp i => decide (i ≠ ROOT_ID)
  | .clearOp => false

/-- The root entry is present and every entry is parent-free. -/
def RootOk (s : InodeStoreInner) : Prop :=
  ((s.get ROOT_ID).isSome = true) ∧ ∀ p ∈ s.data, parentFree p.2 = true

theorem rootOk_data_lookup (s : InodeStoreInner) (h : RootOk s) (i : Inode) (d : InodeData)
    (hget : s.get i = some d) : parentFree d = true :=
  h.2 (i, d) (alookup_mem s.data i d hget)

theorem rootOk_update (s : InodeStoreInner) (h : RootOk s) (k : Inode) (d : InodeData)
    (hpf : parentFree d = true) (Y : List (InodeIds × Inode)) (Z : List (FileHandle × Inode)) :
    RootOk { data := ainsert s.data k d, by_ids := Y, by_handle := Z } := by
  constructor
  · simp only [InodeStoreInner.get, alookup_ainsert]
    by_cases hk : ROOT_ID = k
    · simp [hk]
    · rw [if_neg hk]
      exact h.1
  · intro p hp
    rcases mem_ainsert s.data k d p hp with hp | hp
    · rw [hp]
      exact hpf
    · exact h.2 p hp

theorem rootOk_removeBase (s : InodeStoreInner) (i : Inode) (h : RootOk s)
    (hne : i ≠ ROOT_ID) : RootOk (s.removeBase i).1 ∧ (s.removeBase i).2 = none := by
  cases hget : s.get i with
  | none =>
    unfold InodeStoreInner.removeBase
    rw [hget]
    exact ⟨h, rfl⟩
  | some d =>
    have hpf := rootOk_data_lookup s h i d hget
    rw [removeBase_eq s i d hget]
    have hpopt :
        (match d.migration_info with
         | some mi =>
           match mi.location with
           | InodeLocationPre.path parent _ => some parent
           | InodeLocationPre.rootNode => none
         | none => none) = (none : Option Inode) := by
      unfold parentFree at hpf
      cases hmi : d.migration_info with
      | none => rfl
      | some mi =>
        rw [hmi] at hpf
        dsimp only at hpf ⊢
        cases hloc : mi.location with
        | rootNode => rfl
        | path p fn =>
          rw [hloc] at hpf
          exact absurd hpf (by simp)
    refine ⟨⟨?_, ?_⟩, hpopt⟩
    · simp only [InodeStoreInner.get, alookup_aerase]
      rw [if_neg (fun hc => hne hc.symm)]
      exact h.1
    · intro p hp
      exact h.2 p (mem_aerase _ _ _ hp)

theorem rootOk_forgetOneFuel (f : Nat) :
    ∀ (s : InodeStoreInner) (i : Inode) (n : Nat), RootOk s → i ≠ ROOT_ID →
      RootOk (InodeStoreInner.forgetOneFuel f s i n) := by
  induction f with
  | zero => intro s i n h _; exact h
  | succ f ih =>
    intro s i n h hne
    cases hget : s.get i with
    | none => rw [forgetOneFuel_succ_none f s i n hget]; exact h
    | some d =>
      rw [forgetOneFuel_succ_some f s i n d hget]
      have hpf := rootOk_data_lookup s h i d hget
      have h' : RootOk { s with data := ainsert s.data i { d with refcount := d.refcount - n } } :=
        rootOk_update s h i { d with refcount := d.refcount - n }
          (by simpa [parentFree] using hpf) s.by_ids s.by_handle
      by_cases hz : d.refcount - n = 0
      · rw [if_pos hz]
        obtain ⟨hrb, hpopt⟩ := rootOk_removeBase
          { s with data := ainsert s.data i { d with refcount := d.refcount - n } } i h' hne
        cases hrbv : InodeStoreInner.removeBase
            { s with data := ainsert s.data i { d with refcount := d.refcount - n } } i with
        | mk s'' popt =>
          rw [hrbv] at hrb hpopt
          simp only at hrb hpopt
          subst hpopt
          exact hrb
      · rw [if_neg hz]
        exact h'

theorem rootOk_forget_one (s : InodeStoreInner) (i : Inode) (n : Nat) (h : RootOk s)
    (hne : i ≠ ROOT_ID) : RootOk (s.forget_one i n) :=
  rootOk_forgetOneFuel _ s i n h hne

theorem rootOk_remove (s : InodeStoreInner) (i : Inode) (h : RootOk s)
    (hne : i ≠ ROOT_ID) : RootOk (s.remove i) := by
  unfold InodeStoreInner.remove
  obtain ⟨hrb, hpopt⟩ := rootOk_removeBase s i h hne
  cases hrbv : s.removeBase i with
  | mk s' popt =>
    rw [hrbv] at hrb hpopt
    simp only at hrb hpopt
    subst hpopt
    exact hrb

theorem rootOk_forget_many (l : List (Inode × Nat)) :
    ∀ s : InodeStoreInner, RootOk s →
      (l.all fun p => decide (p.1 ≠ ROOT_ID)) = true →
      RootOk (InodeStore.forget_many s l) := by
  induction l with
  | nil => intro s h _; exact h
  | cons p rest ih =>
    intro s h hall
    simp only [List.all_cons, Bool.and_eq_true] at hall
    exact ih (s.forget_one p.1 p.2)
      (rootOk_forget_one s p.1 p.2 h (of_decide_eq_true hall.1)) hall.2

theorem claim_lookup_some_stored (s : InodeStoreInner) (handle : Option FileHandle)
    (ids : InodeIds) (d : InodeData)
    (h : InodeStore.claim_lookup s handle ids = some d) : ∃ i, s.get i = some d := by
  unfold InodeStore.claim_lookup at h
  cases hb : handle.bind (fun h => s.get_by_handle h) with
  | some e =>
    rw [hb] at h
    simp only [Option.orElse] at h
    cases h
    cases handle with
    | none => simp at hb
    | some fh =>
      simp only [Option.bind] at hb
      unfold InodeStoreInner.get_by_handle at hb
      cases hl : s.inode_by_handle fh with
      | none => rw [hl] at hb; simp at hb
      | some i0 =>
        rw [hl] at hb
        exact ⟨i0, hb⟩
  | none =>
    rw [hb] at h
    simp only [Option.orElse] at h
    cases hg : s.get_by_ids ids with
    | none => rw [hg] at h; simp [Option.filter] at h
    | some e =>
      rw [hg] at h
      simp only [Option.filter] at h
      by_cases hf : e.file_or_handle.isFile = true
      · rw [if_pos hf] at h
        cases h
        unfold InodeStoreInner.get_by_ids at hg
        cases hl : s.inode_by_ids ids with
        | none => rw [hl] at hg; simp at hg
        | some i0 =>
          rw [hl] at hg
          exact ⟨i0, hg⟩
      · rw [if_neg hf] at h
        exact Option.noConfusion h

theorem rootOk_new_with_data (s : InodeStoreInner) (d : InodeData) (h : RootOk s)
    (hpf : parentFree d = true) (r : Inode) (s' : InodeStoreInner)
    (hok : InodeStore.new_with_data s d = .ok (r, s')) : RootOk s' := by
  unfold InodeStore.new_with_data at hok
  cases hrc : increment_refcount_for d.refcount with
  | none =>
    rw [hrc] at hok
    exact Except.noConfusion hok
  | some rc =>
    rw [hrc] at hok
    simp only [Except.ok.injEq, Prod.mk.injEq] at hok
    rw [← hok.2]
    exact rootOk_update s h d.inode { d with refcount := rc }
      (by simpa [parentFree] using hpf) s.by_ids s.by_handle

theorem rootOk_do_claim (s : InodeStoreInner) (handle : Option FileHandle) (ids : InodeIds)
    (h : RootOk s) (r : Inode) (s' : InodeStoreInner)
    (hok : InodeStore.do_claim_inode s handle ids = .ok (r, s')) : RootOk s' := by
  unfold InodeStore.do_claim_inode at hok
  cases hl : InodeStore.claim_lookup s handle ids with
  | none =>
    rw [hl] at hok
    exact Except.noConfusion hok
  | some e =>
    rw [hl] at hok
    obtain ⟨i0, hst⟩ := claim_lookup_some_stored s handle ids e hl
    exact rootOk_new_with_data s e h (rootOk_data_lookup s h i0 e hst) r s' hok

theorem rootOk_applyOp (s : InodeStoreInner) (op : StoreOp) (h : RootOk s)
    (hsafe : rootSafeOp op = true) : RootOk (applyOp s op) := by
  cases op with
  | claimInode handle ids =>
    simp only [applyOp]
    cases hc : InodeStore.claim_inode s handle ids with
    | error e => exact h
    | ok r =>
      cases r with
      | mk i1 s1 => exact rootOk_do_claim s handle ids h i1 s1 hc
  | getStrong i =>
    simp only [applyOp]
    cases hc : InodeStore.get_strong s i with
    | error e => exact h
    | ok r =>
      cases r with
      | mk i1 s1 =>
        unfold InodeStore.get_strong at hc
        cases hg : s.get i with
        | none =>
          rw [hg] at hc
          exact Except.noConfusion hc
        | some d =>
          rw [hg] at hc
          exact rootOk_new_with_data s d h (rootOk_data_lookup s h i d hg) i1 s1 hc
  | getOrInsert d =>
    obtain ⟨hne, hpf⟩ := Bool.and_eq_true_iff.mp hsafe
    simp only [applyOp]
    cases hc : InodeStore.get_or_insert s d with
    | error e => exact h
    | ok r =>
      cases r with
      | mk i1 s1 =>
        unfold InodeStore.get_or_insert at hc
        cases hclaim : InodeStore.do_claim_inode s (handleOf d) d.ids with
        | ok rr =>
          rw [hclaim] at hc
          cases rr with
          | mk i2 s2 =>
            simp only [Except.ok.injEq, Prod.mk.injEq] at hc
            rw [← hc.2]
            exact rootOk_do_claim s (handleOf d) d.ids h i2 s2 hclaim
        | error e0 =>
          rw [hclaim] at hc
          by_cases hcont : s.contains d.inode
          · rw [if_pos hcont] at hc
            exact Except.noConfusion hc
          · rw [if_neg hcont] at hc
            simp only [Except.ok.injEq, Prod.mk.injEq] at hc
            rw [← hc.2]
            unfold InodeStoreInner.insert_new
            exact rootOk_update s h d.inode { d with refcount := 1 }
              (by simpa [parentFree] using hpf) _ _
  | newInode d =>
    obtain ⟨hne, hpf⟩ := Bool.and_eq_true_iff.mp hsafe
    simp only [applyOp]
    cases hc : InodeStore.new_inode s d with
    | error e => exact h
    | ok s1 =>
      unfold InodeStore.new_inode at hc
      by_cases hcont : s.contains d.inode
      · rw [if_pos hcont] at hc
        exact Except.noConfusion hc
      · rw [if_neg hcont] at hc
        simp only [Except.ok.injEq] at hc
        rw [← hc]
        unfold InodeStoreInner.insert_new
        exact rootOk_update s h d.inode d hpf _ _
  | forgetOne i n => exact rootOk_forget_one s i n h (of_decide_eq_true hsafe)
  | forgetMany l => exact rootOk_forget_many l s h (by simpa [rootSafeOp] using hsafe)
  | removeOp i => exact rootOk_remove s i h (of_decide_eq_true hsafe)
  | clearOp => exact absurd hsafe (by simp [rootSafeOp])

theorem rootOk_applyOps (ops : List StoreOp) :
    ∀ s : InodeStoreInner, RootOk s → ops.all rootSafeOp = true →
      RootOk (applyOps s ops) := by
  induction ops with
  | nil => intro s h _; exact h
  | cons op rest ih =>
    intro s h hall
    simp only [List.all_cons, Bool.and_eq_true] at hall
    exact ih (applyOp s op) (rootOk_applyOp s op h hall.1) hall.2

theorem insert_new_get_self (s : InodeStoreInner) (d : InodeData) :
    (s.insert_new d).get d.inode = some d := by
  simp [InodeStoreInner.insert_new, InodeStoreInner.get, alookup_ainsert]

theorem new_inode_empty_get (d : InodeData) (s₁ : InodeStoreInner)
    (h : InodeStore.new_inode InodeStoreInner.empty d = .ok s₁) :
    s₁ = InodeStoreInner.empty.insert_new d := by
  unfold InodeStore.new_inode at h
  simp only [InodeStoreInner.contains, InodeStoreInner.get, InodeStoreInner.empty, alookup,
    Option.isSome_none, Bool.false_eq_true, if_false, Except.ok.injEq] at h
  exact h.symm

theorem new_root_location (v : Bool) (foh : FileOrHandle) (dv : Option FileHandle)
    (mi : InodeMigrationInfo) (h : InodeMigrationInfo.new_root v foh dv = .ok mi) :
    mi.location = InodeLocationPre.rootNode := by
  unfold InodeMigrationInfo.new_root at h
  split_ifs at h with hv
  · cases hs : serializable_of_foh foh dv with
    | none =>
      rw [hs] at h
      exact Except.noConfusion h
    | some fh =>
      rw [hs] at h
      cases h
      rfl
  · cases h
    rfl

/-- `open_root_node` from an empty store yields exactly one inserted entry:
the root, with refcount 2 and a parent-free migration info. -/
theorem open_root_node_shape (cfg : Config) (host : HostModel) (s₁ : InodeStoreInner)
    (h : PassthroughFs.open_root_node cfg host InodeStoreInner.empty = .ok s₁) :
    ∃ d : InodeData, s₁ = InodeStoreInner.empty.insert_new d ∧ d.inode = ROOT_ID ∧
      d.refcount = 2 ∧ parentFree d = true := by
  unfold PassthroughFs.open_root_node at h
  cases hr : host.root with
  | none =>
    rw [hr] at h
    exact Except.noConfusion h
  | some node =>
    rw [hr] at h
    rcases node with ⟨nids, nmode, nhandle⟩
    cases nhandle with
    | some hh =>
      dsimp only at h
      cases hmr : InodeMigrationInfo.new_root cfg.migration_verify_handles
          (FileOrHandle.handle hh) (host.derived nids) with
      | ok mi =>
        rw [hmr] at h
        refine ⟨_, new_inode_empty_get _ _ h, rfl, rfl, ?_⟩
        simp [parentFree, new_root_location _ _ _ mi hmr]
      | error e =>
        rw [hmr] at h
        exact ⟨_, new_inode_empty_get _ _ h, rfl, rfl, rfl⟩
    | none =>
      dsimp only at h
      cases hmr : InodeMigrationInfo.new_root cfg.migration_verify_handles
          FileOrHandle.file (host.derived nids) with
      | ok mi =>
        rw [hmr] at h
        refine ⟨_, new_inode_empty_get _ _ h, rfl, rfl, ?_⟩
        simp [parentFree, new_root_location _ _ _ mi hmr]
      | error e =>
        rw [hmr] at h
        exact ⟨_, new_inode_empty_get _ _ h, rfl, rfl, rfl⟩

/-- C10: mounting (init → `open_root_node`) inserts the root inode with an
initial refcount of 2, not 1; consequently a single `forget(ROOT_ID, 1)`
leaves the root entry present (with refcount 1), and after any sequence of
root-safe operations — lookups, insertions and (balanced) forgets on other
inodes — the store still contains the root entry rather than being empty. -/
theorem root_refcount_two (cfg : Config) (host : HostModel) (s₁ : InodeStoreInner)
    (h : PassthroughFs.open_root_node cfg host InodeStoreInner.empty = .ok s₁) :
    (∃ d, s₁.get ROOT_ID = some d ∧ d.refcount = 2) ∧
    (∃ d, (s₁.forget_one ROOT_ID 1).get ROOT_ID = some d ∧ d.refcount = 1) ∧
    (∀ ops : List StoreOp, ops.all rootSafeOp = true →
      ((applyOps s₁ ops).get ROOT_ID).isSome = true) := by
  obtain ⟨d, hs₁, hdi, hdrc, hdpf⟩ := open_root_node_shape cfg host s₁ h
  subst hs₁
  have hget : (InodeStoreInner.empty.insert_new d).get ROOT_ID = some d := by
    rw [← hdi]
    exact insert_new_get_self _ d
  have hroot : RootOk (InodeStoreInner.empty.insert_new d) := by
    refine ⟨by rw [hget]; rfl, ?_⟩
    intro p hp
    simp only [InodeStoreInner.insert_new] at hp
    rcases mem_ainsert _ _ _ p hp with hp | hp
    · rw [hp]
      exact hdpf
    · simp [InodeStoreInner.empty, aerase] at hp
  refine ⟨⟨d, hget, hdrc⟩, ?_, ?_⟩
  · unfold InodeStoreInner.forget_one
    rw [forgetOneFuel_succ_some _ _ ROOT_ID 1 d hget]
    rw [if_neg (by rw [hdrc]; omega)]
    refine ⟨{ d with refcount := d.refcount - 1 }, ?_, by rw [hdrc]⟩
    simp [InodeStoreInner.get, alookup_ainsert]
  · intro ops hall
    exact ((rootOk_applyOps ops _ hroot hall).1)

/-- C10 witness: a concrete mount (host root `(1,1,1)`, directory mode),
followed by a forget of the root and by a balanced lookup/forget pair on
another inode; the root entry survives. -/
theorem root_refcount_two_witness :
    PassthroughFs.open_root_node
      ⟨false, false, false, false, false, MigrationOnError.abort, false⟩
      ⟨some ⟨⟨1, 1, 1⟩, 16384, none⟩, fun _ _ => none, fun _ => none⟩
      InodeStoreInner.empty =
      .ok (InodeStoreInner.empty.insert_new
        ⟨ROOT_ID, FileOrHandle.file, 2, ⟨1, 1, 1⟩, 16384,
          some ⟨InodeLocationPre.rootNode, none⟩⟩) ∧
    (∃ d, (InodeStoreInner.empty.insert_new
        ⟨ROOT_ID, FileOrHandle.file, 2, ⟨1, 1, 1⟩, 16384,
          some ⟨InodeLocationPre.rootNode, none⟩⟩).get ROOT_ID = some d ∧ d.refcount = 2) ∧
    (((applyOps (InodeStoreInner.empty.insert_new
        ⟨ROOT_ID, FileOrHandle.file, 2, ⟨1, 1, 1⟩, 16384,
          some ⟨InodeLocationPre.rootNode, none⟩⟩)
        [StoreOp.getOrInsert ⟨5, FileOrHandle.file, 1, ⟨2, 2, 2⟩, 0, none⟩,
         StoreOp.forgetOne 5 1]).get ROOT_ID).isSome = true) := by
  refine ⟨rfl, ?_, ?_⟩
  · exact (root_refcount_two
      ⟨false, false, false, false, false, MigrationOnError.abort, false⟩
      ⟨some ⟨⟨1, 1, 1⟩, 16384, none⟩, fun _ _ => none, fun _ => none⟩
      _ rfl).1
  · exact (root_refcount_two
      ⟨false, false, false, false, false, MigrationOnError.abort, false⟩
      ⟨some ⟨⟨1, 1, 1⟩, 16384, none⟩, fun _ _ => none, fun _ => none⟩
      _ rfl).2.2
      [StoreOp.getOrInsert ⟨5, FileOrHandle.file, 1, ⟨2, 2, 2⟩, 0, none⟩,
       StoreOp.forgetOne 5 1] (by decide)
